import Mathlib

/-!
Verification of the `typedoc-vitepress-plugin` package of the `sunrsie-ui`
monorepo: a shallow embedding of `SlugGenerator`, `CommentParser`,
`SidebarGenerator` and `VitePressRenderer` (from
`src/packages/typedoc-vitepress-plugin/src/types/index.ts` and the
`src/CommentParser.ts` / `src/SidebarGenerator.ts` / `src/SlugGenerator.ts`
sources), together with theorems settling the specification's claims about
slug generation, comment-metadata lookup, module grouping and the
incremental render/prune lifecycle.

JavaScript strings are modelled as Lean `String` (sequences of Unicode
scalar values).  JavaScript runtime errors (`TypeError` on property access
of `undefined`) are modelled with `Except String`.  Node library
primitives (`crypto` MD5, `String.prototype.normalize`, `path.join`, the
`fs` promises API) are modelled explicitly below, each next to the
definition that uses it.
-/

set_option maxRecDepth 100000

/-! ## Modelling of JavaScript string primitives -/

/-- 32-bit truncation, used by the MD5 model. -/
def w32 (x : Nat) : Nat := x % 4294967296

/-- UTF-8 encoding of one Unicode scalar value (model of Node's UTF-8
encoding of a JS string, as used by `crypto.createHash("md5").update`). -/
def utf8Bytes (c : Char) : List Nat :=
  let n := c.toNat
  if n < 128 then [n]
  else if n < 2048 then [192 + n / 64, 128 + n % 64]
  else if n < 65536 then [224 + n / 4096, 128 + (n / 64) % 64, 128 + n % 64]
  else [240 + n / 262144, 128 + (n / 4096) % 64, 128 + (n / 64) % 64, 128 + n % 64]

/-- UTF-8 encoding of a string as a byte list. -/
def utf8Encode (s : String) : List Nat := s.data.flatMap utf8Bytes

/-! ## MD5 (model of Node `crypto.createHash("md5")`)

The real MD5 algorithm (RFC 1321) over byte lists, little-endian words as
`Nat` truncated with `w32`. -/

/-- The 64 MD5 round constants `K[i] = floor(abs(sin(i+1)) * 2^32)`. -/
def md5K : List Nat :=
  [3614090360, 3905402710, 606105819, 3250441966, 4118548399, 1200080426, 2821735955, 4249261313,
   1770035416, 2336552879, 4294925233, 2304563134, 1804603682, 4254626195, 2792965006, 1236535329,
   4129170786, 3225465664, 643717713, 3921069994, 3593408605, 38016083, 3634488961, 3889429448,
   568446438, 3275163606, 4107603335, 1163531501, 2850285829, 4243563512, 1735328473, 2368359562,
   4294588738, 2272392833, 1839030562, 4259657740, 2763975236, 1272893353, 4139469664, 3200236656,
   681279174, 3936430074, 3572445317, 76029189, 3654602809, 3873151461, 530742520, 3299628645,
   4096336452, 1126891415, 2878612391, 4237533241, 1700485571, 2399980690, 4293915773, 2240044497,
   1873313359, 4264355552, 2734768916, 1309151649, 4149444226, 3174756917, 718787259, 3951481745]

/-- The 64 MD5 per-round left-rotation amounts. -/
def md5S : List Nat :=
  [7, 12, 17, 22, 7, 12, 17, 22, 7, 12, 17, 22, 7, 12, 17, 22,
   5, 9, 14, 20, 5, 9, 14, 20, 5, 9, 14, 20, 5, 9, 14, 20,
   4, 11, 16, 23, 4, 11, 16, 23, 4, 11, 16, 23, 4, 11, 16, 23,
   6, 10, 15, 21, 6, 10, 15, 21, 6, 10, 15, 21, 6, 10, 15, 21]

/-- 32-bit left rotation. -/
def leftrot (x c : Nat) : Nat := w32 ((x <<< c) ||| (x >>> (32 - c)))

/-- MD5 padding: append `0x80`, zero bytes up to 56 mod 64, then the
bit length as a 64-bit little-endian quantity. -/
def md5Pad (msg : List Nat) : List Nat :=
  let len := msg.length
  let padLen := (56 + 64 - (len + 1) % 64) % 64
  let bits := (8 * len) % 18446744073709551616
  msg ++ [128] ++ List.replicate padLen 0 ++
    (List.range 8).map (fun i => (bits >>> (8 * i)) % 256)

/-- Split a byte list into 64-byte blocks (structural recursion on a
fuel bound; each step consumes at least one byte, so `l.length` fuel is
always sufficient). -/
def md5BlocksGo : Nat → List Nat → List (List Nat)
  | 0, _ => []
  | fuel + 1, l => if l = [] then [] else l.take 64 :: md5BlocksGo fuel (l.drop 64)

/-- Split a byte list into 64-byte blocks. -/
def md5Blocks (l : List Nat) : List (List Nat) := md5BlocksGo l.length l

/-- Little-endian 32-bit word `j` of a 64-byte block. -/
def leWord (b : List Nat) (j : Nat) : Nat :=
  b.getD (4 * j) 0 + 256 * b.getD (4 * j + 1) 0 +
    65536 * b.getD (4 * j + 2) 0 + 16777216 * b.getD (4 * j + 3) 0

/-- The MD5 nonlinear function for round `i`. -/
def md5F (i b c d : Nat) : Nat :=
  if i < 16 then (b &&& c) ||| ((b ^^^ 4294967295) &&& d)
  else if i < 32 then (d &&& b) ||| ((d ^^^ 4294967295) &&& c)
  else if i < 48 then b ^^^ c ^^^ d
  else c ^^^ (b ||| (d ^^^ 4294967295))

/-- The MD5 message-word index for round `i`. -/
def md5G (i : Nat) : Nat :=
  if i < 16 then i
  else if i < 32 then (5 * i + 1) % 16
  else if i < 48 then (3 * i + 5) % 16
  else (7 * i) % 16

/-- One MD5 round on the state `(a, b, c, d)`. -/
def md5Step (block : List Nat) (st : Nat × Nat × Nat × Nat) (i : Nat) :
    Nat × Nat × Nat × Nat :=
  let (a, b, c, d) := st
  let f := w32 (md5F i b c d + a + md5K.getD i 0 + leWord block (md5G i))
  (d, w32 (b + leftrot f (md5S.getD i 0)), b, c)

/-- Process one 64-byte block. -/
def md5Block (st : Nat × Nat × Nat × Nat) (block : List Nat) :
    Nat × Nat × Nat × Nat :=
  let (a, b, c, d) := (List.range 64).foldl (md5Step block) st
  (w32 (st.1 + a), w32 (st.2.1 + b), w32 (st.2.2.1 + c), w32 (st.2.2.2 + d))

/-- A 32-bit word as four little-endian bytes. -/
def wordLE (w : Nat) : List Nat :=
  [w % 256, (w >>> 8) % 256, (w >>> 16) % 256, (w >>> 24) % 256]

/-- The 16-byte MD5 digest of a byte list. -/
def md5Bytes (msg : List Nat) : List Nat :=
  let st := (md5Blocks (md5Pad msg)).foldl md5Block
    (1732584193, 4023233417, 2562383102, 271733878)
  wordLE st.1 ++ wordLE st.2.1 ++ wordLE st.2.2.1 ++ wordLE st.2.2.2

/-- Two lowercase hex characters for one byte. -/
def hexByte (b : Nat) : List Char :=
  [Nat.digitChar (b / 16 % 16), Nat.digitChar (b % 16)]

/-- The lowercase 32-character hex MD5 digest of a string, the model of
`crypto.createHash("md5").update(name).digest("hex")`. -/
def md5Hex (s : String) : String :=
  String.mk ((md5Bytes (utf8Encode s)).flatMap hexByte)

/-! ## Character classes and Unicode primitives used by `SlugGenerator` -/

/-- NFD decompositions for the precomposed Latin letters this model
supports (model of `String.prototype.normalize("NFD")` on the Latin-1
range; characters without an entry — in particular all ASCII and all CJK
characters, which have no canonical decomposition — are unchanged). -/
def nfdTable : List (Char × List Char) :=
  [('À', ['A', '̀']), ('Á', ['A', '́']), ('Â', ['A', '̂']),
   ('Ã', ['A', '̃']), ('Ä', ['A', '̈']), ('Å', ['A', '̊']),
   ('Ç', ['C', '̧']),
   ('È', ['E', '̀']), ('É', ['E', '́']), ('Ê', ['E', '̂']), ('Ë', ['E', '̈']),
   ('Ì', ['I', '̀']), ('Í', ['I', '́']), ('Î', ['I', '̂']), ('Ï', ['I', '̈']),
   ('Ñ', ['N', '̃']),
   ('Ò', ['O', '̀']), ('Ó', ['O', '́']), ('Ô', ['O', '̂']),
   ('Õ', ['O', '̃']), ('Ö', ['O', '̈']),
   ('Ù', ['U', '̀']), ('Ú', ['U', '́']), ('Û', ['U', '̂']), ('Ü', ['U', '̈']),
   ('Ý', ['Y', '́']),
   ('à', ['a', '̀']), ('á', ['a', '́']), ('â', ['a', '̂']),
   ('ã', ['a', '̃']), ('ä', ['a', '̈']), ('å', ['a', '̊']),
   ('ç', ['c', '̧']),
   ('è', ['e', '̀']), ('é', ['e', '́']), ('ê', ['e', '̂']), ('ë', ['e', '̈']),
   ('ì', ['i', '̀']), ('í', ['i', '́']), ('î', ['i', '̂']), ('ï', ['i', '̈']),
   ('ñ', ['n', '̃']),
   ('ò', ['o', '̀']), ('ó', ['o', '́']), ('ô', ['o', '̂']),
   ('õ', ['o', '̃']), ('ö', ['o', '̈']),
   ('ù', ['u', '̀']), ('ú', ['u', '́']), ('û', ['u', '̂']), ('ü', ['u', '̈']),
   ('ý', ['y', '́']), ('ÿ', ['y', '̈'])]

/-- NFD decomposition of one character. -/
def nfdChar (c : Char) : List Char :=
  match nfdTable.find? (fun e => e.1 == c) with
  | some e => e.2
  | none => [c]

/-- NFD normalization of a character list. -/
def nfd (l : List Char) : List Char := l.flatMap nfdChar

/-- Combining diacritical marks, the class `[̀-ͯ]`. -/
def isCombiningMark (c : Char) : Bool := 768 ≤ c.toNat && c.toNat ≤ 879

/-- Model of `String.prototype.toLowerCase` on one character: ASCII
`A`–`Z` are lowered; every other character is unchanged (sufficient for
this code path, where non-ASCII characters are later filtered out). -/
def toLowerJs (c : Char) : Char :=
  if 65 ≤ c.toNat && c.toNat ≤ 90 then Char.ofNat (c.toNat + 32) else c

/-- The JavaScript regex class `\s`. -/
def isJsSpace (c : Char) : Bool :=
  let n := c.toNat
  (9 ≤ n && n ≤ 13) || n == 32 || n == 160 || n == 5760 ||
    (8192 ≤ n && n ≤ 8202) || n == 8232 || n == 8233 || n == 8239 ||
    n == 8287 || n == 12288 || n == 65279

/-- The class `[a-z0-9]`. -/
def isLowerDigit (c : Char) : Bool :=
  (97 ≤ c.toNat && c.toNat ≤ 122) || (48 ≤ c.toNat && c.toNat ≤ 57)

/-- The class `[a-z0-9-]` of slug characters. -/
def isSlugChar (c : Char) : Bool := isLowerDigit c || c == '-'

/-- The class `[a-zA-Z0-9]`. -/
def isAsciiAlnum (c : Char) : Bool :=
  (97 ≤ c.toNat && c.toNat ≤ 122) || (65 ≤ c.toNat && c.toNat ≤ 90) ||
    (48 ≤ c.toNat && c.toNat ≤ 57)

/-- The lowercase hex characters `[a-f0-9]`. -/
def isHexChar (c : Char) : Bool :=
  (97 ≤ c.toNat && c.toNat ≤ 102) || (48 ≤ c.toNat && c.toNat ≤ 57)

/-- Model of `replace(/\s+/g, "-")`: every maximal run of whitespace
becomes a single hyphen. -/
def squashSpaces : List Char → List Char
  | [] => []
  | [a] => [if isJsSpace a then '-' else a]
  | a :: b :: rest =>
    if isJsSpace a && isJsSpace b then squashSpaces (b :: rest)
    else (if isJsSpace a then '-' else a) :: squashSpaces (b :: rest)

/-- Model of the global replacement of the regex `-+` by `"-"`: every
maximal run of hyphens becomes a single hyphen. -/
def collapseHyphens : List Char → List Char
  | [] => []
  | [a] => [a]
  | a :: b :: rest =>
    if a == '-' && b == '-' then collapseHyphens (b :: rest)
    else a :: collapseHyphens (b :: rest)

/-- Drop one leading hyphen if present. -/
def trimLeadingHyphen : List Char → List Char
  | [] => []
  | a :: rest => if a = '-' then rest else a :: rest

/-- Drop one trailing hyphen if present. -/
def trimTrailingHyphen : List Char → List Char
  | [] => []
  | [a] => if a = '-' then [] else [a]
  | a :: b :: rest => a :: trimTrailingHyphen (b :: rest)

/-- Model of `replace(/^-|-$/g, "")`: remove one leading and one trailing
hyphen. -/
def trimHyphens (l : List Char) : List Char :=
  trimTrailingHyphen (trimLeadingHyphen l)

namespace SlugGenerator

/-- `SlugGenerator.MAX_LENGTH`. -/
def MAX_LENGTH : Nat := 50

/-- `SlugGenerator.MIN_HASH_LENGTH`. -/
def MIN_HASH_LENGTH : Nat := 8

/-- `SlugGenerator.toBasicLatin`: NFD-normalize, strip combining marks,
lowercase, keep only `[a-z0-9\s-]`, squash whitespace runs to hyphens,
collapse hyphen runs, trim a leading/trailing hyphen. -/
def toBasicLatin (str : String) : String :=
  String.mk (trimHyphens (collapseHyphens (squashSpaces
    ((((nfd str.data).filter (fun c => !isCombiningMark c)).map toLowerJs).filter
      (fun c => isLowerDigit c || isJsSpace c || c == '-')))))

/-- `SlugGenerator.extractValidPrefix`: NFD-normalize, strip combining
marks, keep only `[a-zA-Z0-9]`, take the first 10 characters, lowercase. -/
def extractValidPrefixOf (name : String) : String :=
  String.mk (((((nfd name.data).filter (fun c => !isCombiningMark c)).filter
    isAsciiAlnum).take 10).map toLowerJs)

/-- `SlugGenerator.generateHashedSlug`: the first 8 hex characters of the
MD5 of the original name, with the valid prefix (when non-empty) glued in
front with a hyphen. -/
def generateHashedSlug (name : String) : String :=
  let hash := String.mk ((md5Hex name).data.take MIN_HASH_LENGTH)
  let pfx := extractValidPrefixOf name
  if pfx ≠ "" then pfx ++ "-" ++ hash else hash

/-- `SlugGenerator.generateSlug` (the JS `const basicSlug = this.toBasicLatin(name)`
binding is inlined; `toBasicLatin` is pure). -/
def generateSlug (name : String) : String :=
  if name = "" then "unknown"
  else if toBasicLatin name = "" || decide ((toBasicLatin name).length > MAX_LENGTH) ||
      (toBasicLatin name).data.any (fun c => !isSlugChar c) then
    generateHashedSlug name
  else toBasicLatin name

/-- `SlugGenerator.generateFilePath`. -/
def generateFilePath (name baseDir : String) : String :=
  baseDir ++ "/" ++ generateSlug name ++ ".md"

end SlugGenerator

/-- Sanity check of the MD5 model against the RFC 1321 test vector. -/
example : md5Hex "abc" = "900150983cd24fb0d6963f7d28e17f72" := by decide

/-- Sanity check of the MD5 model on the empty message. -/
example : md5Hex "" = "d41d8cd98f00b204e9800998ecf8427e" := by decide

/-! ## Structural properties of slug generation

`noDoubleHyphen l` states that `l` has no two adjacent hyphens; together
with the alphabet bound, the length bound and hyphen-free ends this
characterizes the strings that `toBasicLatin` maps to themselves. -/

/-- No two adjacent hyphens. -/
def noDoubleHyphen : List Char → Bool
  | [] => true
  | [_] => true
  | a :: b :: rest => !(a == '-' && b == '-') && noDoubleHyphen (b :: rest)

/-- The fixed points of the slug pipeline: nonempty, at most 50
characters, slug alphabet, no adjacent hyphens, hyphen-free ends. -/
def SlugFixed (s : String) : Prop :=
  s ≠ "" ∧ s.length ≤ 50 ∧ (∀ c ∈ s.data, isSlugChar c = true) ∧
    noDoubleHyphen s.data = true ∧
    s.data.head? ≠ some '-' ∧ s.data.getLast? ≠ some '-'

theorem char_toNat_ofNat {n : Nat} (h : n < 55296) : (Char.ofNat n).toNat = n := by
  unfold Char.ofNat
  rw [dif_pos (Or.inl h)]
  rfl

theorem isHexChar_digitChar_mod (n : Nat) : isHexChar (Nat.digitChar (n % 16)) = true := by
  have hall : ∀ m, m < 16 → isHexChar (Nat.digitChar m) = true := by decide
  exact hall _ (Nat.mod_lt _ (by norm_num))

theorem isHexChar_of_mem_hexByte {c : Char} {b : Nat} (h : c ∈ hexByte b) :
    isHexChar c = true := by
  simp only [hexByte, List.mem_cons, List.not_mem_nil, or_false] at h
  rcases h with rfl | rfl
  · exact isHexChar_digitChar_mod _
  · exact isHexChar_digitChar_mod _

theorem isHexChar_of_mem_md5Hex {s : String} {c : Char} (h : c ∈ (md5Hex s).data) :
    isHexChar c = true := by
  have h' : c ∈ (md5Bytes (utf8Encode s)).flatMap hexByte := h
  rcases List.mem_flatMap.mp h' with ⟨b, _, hc⟩
  exact isHexChar_of_mem_hexByte hc

theorem length_flatMap_hexByte (l : List Nat) : (l.flatMap hexByte).length = 2 * l.length := by
  induction l with
  | nil => rfl
  | cons b t ih =>
    simp only [List.flatMap_cons, List.length_append, ih, hexByte, List.length_cons,
      List.length_nil]
    omega

theorem md5Bytes_length (msg : List Nat) : (md5Bytes msg).length = 16 := by
  simp [md5Bytes, wordLE]

theorem md5Hex_length (s : String) : (md5Hex s).length = 32 := by
  show ((md5Bytes (utf8Encode s)).flatMap hexByte).length = 32
  rw [length_flatMap_hexByte, md5Bytes_length]

theorem isSlugChar_of_isHexChar {c : Char} (h : isHexChar c = true) :
    isSlugChar c = true := by
  simp only [isHexChar, Bool.or_eq_true, decide_eq_true_eq, Bool.and_eq_true] at h
  simp only [isSlugChar, isLowerDigit, Bool.or_eq_true, decide_eq_true_eq, Bool.and_eq_true]
  omega

theorem isLowerDigit_toLowerJs {c : Char} (h : isAsciiAlnum c = true) :
    isLowerDigit (toLowerJs c) = true := by
  simp only [isAsciiAlnum, Bool.or_eq_true, Bool.and_eq_true, decide_eq_true_eq] at h
  unfold toLowerJs
  by_cases hc : (65 ≤ c.toNat && c.toNat ≤ 90) = true
  · rw [if_pos hc]
    simp only [Bool.and_eq_true, decide_eq_true_eq] at hc
    have hv : (Char.ofNat (c.toNat + 32)).toNat = c.toNat + 32 :=
      char_toNat_ofNat (by omega)
    simp only [isLowerDigit, Bool.or_eq_true, Bool.and_eq_true, decide_eq_true_eq, hv]
    omega
  · rw [if_neg hc]
    simp only [Bool.and_eq_true, decide_eq_true_eq, not_and, not_le] at hc
    simp only [isLowerDigit, Bool.or_eq_true, Bool.and_eq_true, decide_eq_true_eq]
    omega

theorem isSlugChar_of_isLowerDigit {c : Char} (h : isLowerDigit c = true) :
    isSlugChar c = true := by
  simp [isSlugChar, h]

theorem ne_hyphen_of_isLowerDigit {c : Char} (h : isLowerDigit c = true) : c ≠ '-' := by
  intro hc
  rw [hc] at h
  exact absurd h (by decide)

theorem ne_hyphen_of_isHexChar {c : Char} (h : isHexChar c = true) : c ≠ '-' := by
  intro hc
  rw [hc] at h
  exact absurd h (by decide)

namespace SlugGenerator

theorem extractValidPrefixOf_chars {name : String} {c : Char}
    (h : c ∈ (extractValidPrefixOf name).data) : isLowerDigit c = true := by
  simp only [extractValidPrefixOf] at h
  rcases List.mem_map.mp h with ⟨c', hc', rfl⟩
  have := List.take_subset 10 _ hc'
  exact isLowerDigit_toLowerJs (List.mem_filter.mp this).2

theorem extractValidPrefixOf_length (name : String) :
    (extractValidPrefixOf name).length ≤ 10 := by
  show (String.mk _).length ≤ 10
  simp only [String.length, List.length_map, List.length_take]
  omega

end SlugGenerator

/-! Helper lemmas about `noDoubleHyphen` and the hyphen-trimming steps. -/

theorem noDoubleHyphen_tail {a : Char} {rest : List Char}
    (h : noDoubleHyphen (a :: rest) = true) : noDoubleHyphen rest = true := by
  cases rest with
  | nil => rfl
  | cons b t =>
    simp only [noDoubleHyphen, Bool.and_eq_true] at h
    exact h.2

theorem noDoubleHyphen_cons_of_ne {a : Char} {rest : List Char} (ha : a ≠ '-')
    (h : noDoubleHyphen rest = true) : noDoubleHyphen (a :: rest) = true := by
  cases rest with
  | nil => rfl
  | cons b t =>
    simp only [noDoubleHyphen, Bool.and_eq_true, Bool.not_eq_eq_eq_not, Bool.not_true,
      Bool.and_eq_false_iff, beq_eq_false_iff_ne]
    exact ⟨Or.inl ha, h⟩

theorem noDoubleHyphen_of_no_hyphen : ∀ {l : List Char}, (∀ c ∈ l, c ≠ '-') →
    noDoubleHyphen l = true
  | [], _ => rfl
  | a :: rest, h =>
    noDoubleHyphen_cons_of_ne (h a (by simp))
      (noDoubleHyphen_of_no_hyphen (fun c hc => h c (by simp [hc])))

theorem noDoubleHyphen_sep {l₁ l₂ : List Char} (h₁ : ∀ c ∈ l₁, c ≠ '-')
    (h₂ : ∀ c ∈ l₂, c ≠ '-') : noDoubleHyphen (l₁ ++ '-' :: l₂) = true := by
  induction l₁ with
  | nil =>
    cases l₂ with
    | nil => rfl
    | cons b t =>
      simp only [List.nil_append, noDoubleHyphen, Bool.and_eq_true, Bool.not_eq_eq_eq_not,
        Bool.not_true, Bool.and_eq_false_iff, beq_eq_false_iff_ne]
      exact ⟨Or.inr (h₂ b (by simp)),
        noDoubleHyphen_of_no_hyphen (fun c hc => h₂ c (by simp [hc]))⟩
  | cons a t ih =>
    have ha : a ≠ '-' := h₁ a (by simp)
    simp only [List.cons_append]
    exact noDoubleHyphen_cons_of_ne ha (ih (fun c hc => h₁ c (by simp [hc])))

theorem collapseHyphens_cons_ne {b : Char} {rest : List Char} (hb : b ≠ '-') :
    ∃ t, collapseHyphens (b :: rest) = b :: t := by
  cases rest with
  | nil => exact ⟨[], rfl⟩
  | cons c t =>
    refine ⟨collapseHyphens (c :: t), ?_⟩
    simp only [collapseHyphens]
    rw [if_neg]
    simp only [Bool.and_eq_true, beq_iff_eq, not_and]
    intro hb'
    exact absurd hb' hb

theorem noDoubleHyphen_collapseHyphens : ∀ l : List Char,
    noDoubleHyphen (collapseHyphens l) = true
  | [] => rfl
  | [_] => rfl
  | a :: b :: rest => by
    by_cases hab : a == '-' && b == '-'
    · simp only [collapseHyphens, if_pos hab]
      exact noDoubleHyphen_collapseHyphens (b :: rest)
    · simp only [collapseHyphens, if_neg hab]
      by_cases ha : a = '-'
      · have hb : b ≠ '-' := by
          simp only [Bool.and_eq_true, beq_iff_eq] at hab
          intro hb'
          exact hab ⟨ha, hb'⟩
        rcases @collapseHyphens_cons_ne b rest hb with ⟨t, ht⟩
        rw [ht]
        simp only [noDoubleHyphen, Bool.and_eq_true, Bool.not_eq_eq_eq_not, Bool.not_true,
          Bool.and_eq_false_iff, beq_eq_false_iff_ne]
        refine ⟨Or.inr hb, ?_⟩
        have := noDoubleHyphen_collapseHyphens (b :: rest)
        rwa [ht] at this
      · exact noDoubleHyphen_cons_of_ne ha (noDoubleHyphen_collapseHyphens (b :: rest))

theorem collapseHyphens_id : ∀ {l : List Char}, noDoubleHyphen l = true →
    collapseHyphens l = l
  | [], _ => rfl
  | [_], _ => rfl
  | a :: b :: rest, h => by
    simp only [noDoubleHyphen, Bool.and_eq_true, Bool.not_eq_eq_eq_not, Bool.not_true] at h
    simp only [collapseHyphens]
    rw [if_neg (by simp [h.1])]
    rw [collapseHyphens_id h.2]

theorem squashSpaces_id : ∀ {l : List Char}, (∀ c ∈ l, isJsSpace c = false) →
    squashSpaces l = l
  | [], _ => rfl
  | [a], h => by
    simp only [squashSpaces]
    rw [if_neg (by simp [h a (by simp)])]
  | a :: b :: rest, h => by
    have ha : isJsSpace a = false := h a (by simp)
    simp only [squashSpaces]
    rw [if_neg (by simp [ha]), if_neg (by simp [ha])]
    rw [squashSpaces_id (fun c hc => h c (by simp [hc]))]

theorem trimLeadingHyphen_id {l : List Char} (h : l.head? ≠ some '-') :
    trimLeadingHyphen l = l := by
  cases l with
  | nil => rfl
  | cons a rest =>
    simp only [List.head?_cons, ne_eq, Option.some.injEq] at h
    simp [trimLeadingHyphen, h]

theorem trimTrailingHyphen_id : ∀ {l : List Char}, l.getLast? ≠ some '-' →
    trimTrailingHyphen l = l
  | [], _ => rfl
  | [a], h => by
    simp only [List.getLast?_singleton, ne_eq, Option.some.injEq] at h
    simp [trimTrailingHyphen, h]
  | a :: b :: rest, h => by
    rw [List.getLast?_cons_cons] at h
    simp only [trimTrailingHyphen]
    rw [trimTrailingHyphen_id h]

theorem head?_trimLeadingHyphen {l : List Char} (h : noDoubleHyphen l = true) :
    (trimLeadingHyphen l).head? ≠ some '-' := by
  cases l with
  | nil => simp [trimLeadingHyphen]
  | cons a rest =>
    by_cases ha : a = '-'
    · simp only [trimLeadingHyphen, if_pos ha]
      cases rest with
      | nil => simp
      | cons b t =>
        subst ha
        simp only [noDoubleHyphen, Bool.and_eq_true, Bool.not_eq_eq_eq_not, Bool.not_true,
          Bool.and_eq_false_iff, beq_eq_false_iff_ne] at h
        rcases h.1 with hb | hb
        · exact absurd rfl hb
        · simp [hb]
    · simp [trimLeadingHyphen, ha]

theorem noDoubleHyphen_trimLeadingHyphen {l : List Char} (h : noDoubleHyphen l = true) :
    noDoubleHyphen (trimLeadingHyphen l) = true := by
  cases l with
  | nil => rfl
  | cons a rest =>
    by_cases ha : a = '-'
    · simp only [trimLeadingHyphen, if_pos ha]
      exact noDoubleHyphen_tail h
    · simpa [trimLeadingHyphen, ha] using h

theorem trimTrailingHyphen_eq_nil_iff {b : Char} {rest : List Char} :
    trimTrailingHyphen (b :: rest) = [] ↔ b = '-' ∧ rest = [] := by
  cases rest with
  | nil =>
    by_cases hb : b = '-' <;> simp [trimTrailingHyphen, hb]
  | cons c t => simp [trimTrailingHyphen]

theorem head?_trimTrailingHyphen (b : Char) (rest : List Char) :
    (trimTrailingHyphen (b :: rest)).head? = some b ∨ trimTrailingHyphen (b :: rest) = [] := by
  cases rest with
  | nil =>
    by_cases hb : b = '-'
    · right; simp [trimTrailingHyphen, hb]
    · left; simp [trimTrailingHyphen, hb]
  | cons c t => left; simp [trimTrailingHyphen]

theorem noDoubleHyphen_trimTrailingHyphen : ∀ {l : List Char}, noDoubleHyphen l = true →
    noDoubleHyphen (trimTrailingHyphen l) = true
  | [], _ => rfl
  | [a], _ => by
    by_cases ha : a = '-' <;> simp [trimTrailingHyphen, ha, noDoubleHyphen]
  | a :: b :: rest, h => by
    simp only [trimTrailingHyphen]
    have hrest := noDoubleHyphen_trimTrailingHyphen (noDoubleHyphen_tail h)
    rcases head?_trimTrailingHyphen b rest with hh | hh
    · obtain ⟨t, ht⟩ : ∃ t, trimTrailingHyphen (b :: rest) = b :: t := by
        cases hx : trimTrailingHyphen (b :: rest) with
        | nil => rw [hx] at hh; simp at hh
        | cons x t =>
          rw [hx] at hh
          simp only [List.head?_cons, Option.some.injEq] at hh
          exact ⟨t, by rw [hh]⟩

      rw [ht]
      simp only [noDoubleHyphen, Bool.and_eq_true]
      constructor
      · simp only [noDoubleHyphen, Bool.and_eq_true] at h
        exact h.1
      · rw [ht] at hrest
        exact hrest
    · rw [hh]
      rfl

theorem getLast?_trimTrailingHyphen : ∀ {l : List Char}, noDoubleHyphen l = true →
    (trimTrailingHyphen l).getLast? ≠ some '-'
  | [], _ => by simp [trimTrailingHyphen]
  | [a], _ => by
    by_cases ha : a = '-' <;> simp [trimTrailingHyphen, ha]
  | a :: b :: rest, h => by
    simp only [trimTrailingHyphen]
    by_cases hnil : trimTrailingHyphen (b :: rest) = []
    · rw [hnil]
      rcases trimTrailingHyphen_eq_nil_iff.mp hnil with ⟨hb, hrest⟩
      subst hb; subst hrest
      simp only [noDoubleHyphen, Bool.and_eq_true, Bool.not_eq_eq_eq_not, Bool.not_true,
        Bool.and_eq_false_iff, beq_eq_false_iff_ne] at h
      rcases h.1 with ha | ha
      · simp [ha]
      · exact absurd rfl ha
    · obtain ⟨x, t, hx⟩ : ∃ x t, trimTrailingHyphen (b :: rest) = x :: t := by
        cases hy : trimTrailingHyphen (b :: rest) with
        | nil => exact absurd hy hnil
        | cons x t => exact ⟨x, t, rfl⟩
      rw [hx, List.getLast?_cons_cons]
      have := @getLast?_trimTrailingHyphen (b :: rest) (noDoubleHyphen_tail h)
      rwa [hx] at this

theorem head?_trimTrailingHyphen_preserve {l : List Char} (h : l.head? ≠ some '-') :
    (trimTrailingHyphen l).head? ≠ some '-' := by
  cases l with
  | nil => simp [trimTrailingHyphen]
  | cons b rest =>
    rcases head?_trimTrailingHyphen b rest with hh | hh
    · rw [hh]
      simpa using h
    · rw [hh]
      simp


/-! Characters of the slug alphabet pass every stage of `toBasicLatin`
unchanged. -/

theorem toNat_cases_of_isSlugChar {c : Char} (h : isSlugChar c = true) :
    c.toNat = 45 ∨ (48 ≤ c.toNat ∧ c.toNat ≤ 57) ∨ (97 ≤ c.toNat ∧ c.toNat ≤ 122) := by
  simp only [isSlugChar, isLowerDigit, Bool.or_eq_true, Bool.and_eq_true,
    decide_eq_true_eq, beq_iff_eq] at h
  rcases h with (h | h) | h
  · right; right; exact h
  · right; left; exact h
  · left; rw [h]; rfl

theorem nfdChar_slug {c : Char} (h : isSlugChar c = true) : nfdChar c = [c] := by
  unfold nfdChar
  rw [List.find?_eq_none.mpr]
  intro e he
  have htab : ∀ e ∈ nfdTable, 192 ≤ e.1.toNat := by decide
  have h192 := htab e he
  have hle : c.toNat ≤ 122 := by rcases toNat_cases_of_isSlugChar h with h' | h' | h' <;> omega
  simp only [beq_iff_eq]
  intro heq
  rw [heq] at h192
  omega

theorem nfd_slug {l : List Char} (h : ∀ c ∈ l, isSlugChar c = true) : nfd l = l := by
  induction l with
  | nil => rfl
  | cons a t ih =>
    show nfdChar a ++ nfd t = a :: t
    rw [nfdChar_slug (h a (by simp)), ih (fun c hc => h c (by simp [hc]))]
    rfl

theorem not_combining_of_slug {c : Char} (h : isSlugChar c = true) :
    (!isCombiningMark c) = true := by
  have := toNat_cases_of_isSlugChar h
  simp only [isCombiningMark, Bool.not_eq_eq_eq_not, Bool.not_true, Bool.and_eq_false_iff,
    decide_eq_false_iff_not, not_le]
  omega

theorem toLowerJs_id_of_slug {c : Char} (h : isSlugChar c = true) : toLowerJs c = c := by
  have := toNat_cases_of_isSlugChar h
  unfold toLowerJs
  rw [if_neg]
  simp only [Bool.and_eq_true, decide_eq_true_eq, not_and, not_le]
  omega

theorem keepBasic_of_slug {c : Char} (h : isSlugChar c = true) :
    (isLowerDigit c || isJsSpace c || c == '-') = true := by
  simp only [isSlugChar, Bool.or_eq_true] at h
  rcases h with h | h
  · simp [h]
  · simp [h]

theorem not_space_of_slug {c : Char} (h : isSlugChar c = true) : isJsSpace c = false := by
  have := toNat_cases_of_isSlugChar h
  simp only [isJsSpace, Bool.or_eq_false_iff, Bool.and_eq_false_iff, beq_eq_false_iff_ne, ne_eq,
    decide_eq_false_iff_not, not_le]
  omega

namespace SlugGenerator

theorem toBasicLatin_id {s : String} (hs : ∀ c ∈ s.data, isSlugChar c = true)
    (hnd : noDoubleHyphen s.data = true) (hh : s.data.head? ≠ some '-')
    (hl : s.data.getLast? ≠ some '-') : toBasicLatin s = s := by
  unfold toBasicLatin trimHyphens
  rw [nfd_slug hs,
    List.filter_eq_self.mpr (fun c hc => not_combining_of_slug (hs c hc)),
    List.map_congr_left (fun c hc => toLowerJs_id_of_slug (hs c hc))]
  rw [show (List.map (fun c => c) s.data) = s.data from List.map_id s.data,
    List.filter_eq_self.mpr (fun c hc => keepBasic_of_slug (hs c hc)),
    squashSpaces_id (fun c hc => not_space_of_slug (hs c hc)),
    collapseHyphens_id hnd, trimLeadingHyphen_id hh, trimTrailingHyphen_id hl]

end SlugGenerator

theorem slugPipelineFacts (l : List Char) :
    noDoubleHyphen (trimHyphens (collapseHyphens l)) = true ∧
      (trimHyphens (collapseHyphens l)).head? ≠ some '-' ∧
      (trimHyphens (collapseHyphens l)).getLast? ≠ some '-' := by
  unfold trimHyphens
  have h1 := noDoubleHyphen_collapseHyphens l
  have h2 := noDoubleHyphen_trimLeadingHyphen h1
  exact ⟨noDoubleHyphen_trimTrailingHyphen h2,
    head?_trimTrailingHyphen_preserve (head?_trimLeadingHyphen h1),
    getLast?_trimTrailingHyphen h2⟩

theorem string_length_data (s : String) : s.length = s.data.length := rfl

theorem head?_getLast?_ne_hyphen {l : List Char} (h : ∀ c ∈ l, c ≠ '-') :
    l.head? ≠ some '-' ∧ l.getLast? ≠ some '-' := by
  constructor
  · intro heq
    exact h '-' (List.mem_of_mem_head? (by rw [heq]; rfl)) rfl
  · intro heq
    exact h '-' (List.mem_of_mem_getLast? (by rw [heq]; rfl)) rfl

namespace SlugGenerator

theorem slugFixed_toBasicLatin {name : String} (hne : toBasicLatin name ≠ "")
    (hlen : (toBasicLatin name).length ≤ 50)
    (halpha : ∀ c ∈ (toBasicLatin name).data, isSlugChar c = true) :
    SlugFixed (toBasicLatin name) := by
  refine ⟨hne, hlen, halpha, ?_, ?_, ?_⟩
  · exact (slugPipelineFacts _).1
  · exact (slugPipelineFacts _).2.1
  · exact (slugPipelineFacts _).2.2

theorem slugFixed_generateHashedSlug (name : String) :
    SlugFixed (generateHashedSlug name) := by
  unfold generateHashedSlug
  have hhl : ((md5Hex name).data.take MIN_HASH_LENGTH).length = 8 := by
    rw [List.length_take]
    have := md5Hex_length name
    simp only [String.length] at this
    rw [this]
    rfl
  have hhex : ∀ c ∈ (md5Hex name).data.take MIN_HASH_LENGTH, isHexChar c = true :=
    fun c hc => isHexChar_of_mem_md5Hex (List.take_subset _ _ hc)
  by_cases hp : extractValidPrefixOf name ≠ ""
  · rw [if_pos hp]
    obtain ⟨a, t, hat⟩ : ∃ a t, (extractValidPrefixOf name).data = a :: t := by
      cases hd : (extractValidPrefixOf name).data with
      | nil =>
        exact absurd (String.ext_iff.mpr (by simp [hd])) hp
      | cons a t => exact ⟨a, t, rfl⟩
    have hdata : (extractValidPrefixOf name ++ "-" ++
        String.mk ((md5Hex name).data.take MIN_HASH_LENGTH)).data =
        (extractValidPrefixOf name).data ++
          '-' :: (md5Hex name).data.take MIN_HASH_LENGTH := by
    
      rw [String.data_append, String.data_append]
      rw [List.append_assoc]
      rfl
    have hpfxchars := fun c hc => @extractValidPrefixOf_chars name c hc
    refine ⟨?_, ?_, ?_, ?_, ?_, ?_⟩
    · intro heq
      rw [String.ext_iff, hdata, hat] at heq
      simp at heq
    · rw [string_length_data, hdata, List.length_append, List.length_cons, hhl]
      have := extractValidPrefixOf_length name
      simp only [String.length] at this
      omega
    · rw [hdata]
      intro c hc
      rcases List.mem_append.mp hc with hc | hc
      · exact isSlugChar_of_isLowerDigit (hpfxchars c hc)
      · rcases List.mem_cons.mp hc with rfl | hc
        · decide
        · exact isSlugChar_of_isHexChar (hhex c hc)
    · rw [hdata]
      exact noDoubleHyphen_sep
        (fun c hc => ne_hyphen_of_isLowerDigit (hpfxchars c hc))
        (fun c hc => ne_hyphen_of_isHexChar (hhex c hc))
    · rw [hdata, hat]
      simp only [List.cons_append, List.head?_cons, ne_eq, Option.some.injEq]
      exact ne_hyphen_of_isLowerDigit (hpfxchars a (by rw [hat]; simp))
    · rw [hdata]
      obtain ⟨b, u, hbu⟩ : ∃ b u, (md5Hex name).data.take MIN_HASH_LENGTH = b :: u := by
        cases hd : (md5Hex name).data.take MIN_HASH_LENGTH with
        | nil => rw [hd] at hhl; simp at hhl
        | cons b u => exact ⟨b, u, rfl⟩
      have hlast : ('-' :: (md5Hex name).data.take MIN_HASH_LENGTH).getLast? ≠ some '-' := by
        rw [hbu]
        rw [show ('-' :: b :: u).getLast? = (b :: u).getLast? from List.getLast?_cons_cons]
        exact (head?_getLast?_ne_hyphen (fun c hc =>
          ne_hyphen_of_isHexChar (hhex c (by rw [hbu]; exact hc)))).2
      rw [List.getLast?_append]
      cases hc : ('-' :: (md5Hex name).data.take MIN_HASH_LENGTH).getLast? with
      | none => rw [hbu] at hc; simp [List.getLast?] at hc
      | some x =>
        rw [Option.or]
        rw [hc] at hlast
        simpa using hlast
  · rw [if_neg hp]
    refine ⟨?_, ?_, ?_, ?_, ?_, ?_⟩
    · intro heq
      rw [String.ext_iff] at heq
      have : ((md5Hex name).data.take MIN_HASH_LENGTH).length = 0 := by
        have h' : (md5Hex name).data.take MIN_HASH_LENGTH = ([] : List Char) := heq
        rw [h']
        rfl
      omega
    · rw [string_length_data]
      show ((md5Hex name).data.take MIN_HASH_LENGTH).length ≤ 50
      omega
    · intro c hc
      exact isSlugChar_of_isHexChar (hhex c hc)
    · exact noDoubleHyphen_of_no_hyphen (fun c hc => ne_hyphen_of_isHexChar (hhex c hc))
    · exact (head?_getLast?_ne_hyphen (fun c hc => ne_hyphen_of_isHexChar (hhex c hc))).1
    · exact (head?_getLast?_ne_hyphen (fun c hc => ne_hyphen_of_isHexChar (hhex c hc))).2

end SlugGenerator

theorem generateSlug_eq_of_slugFixed {s : String} (h : SlugFixed s) :
    SlugGenerator.generateSlug s = s := by
  obtain ⟨h1, h2, h3, h4, h5, h6⟩ := h
  have hb : SlugGenerator.toBasicLatin s = s := SlugGenerator.toBasicLatin_id h3 h4 h5 h6
  have hany : (s.data.any fun c => !isSlugChar c) = false := by
    rw [List.any_eq_false]
    intro c hc
    rw [h3 c hc]
    simp
  have hlen : decide (s.length > SlugGenerator.MAX_LENGTH) = false := by
    simp only [decide_eq_false_iff_not, gt_iff_lt, not_lt]
    exact h2
  unfold SlugGenerator.generateSlug
  rw [if_neg h1, hb]
  simp [h1, hany, hlen]

theorem slugFixed_generateSlug (s : String) : SlugFixed (SlugGenerator.generateSlug s) := by
  unfold SlugGenerator.generateSlug
  by_cases hs : s = ""
  · rw [if_pos hs]
    unfold SlugFixed
    decide
  · rw [if_neg hs]
    split
    · exact SlugGenerator.slugFixed_generateHashedSlug s
    · next hcond =>
      have hX := Bool.eq_false_iff.mpr hcond
      simp only [Bool.or_eq_false_iff, decide_eq_false_iff_not, List.any_eq_false] at hX
      obtain ⟨⟨hne, hle⟩, hall⟩ := hX
      simp only [SlugGenerator.MAX_LENGTH, gt_iff_lt, not_lt] at hle
      refine SlugGenerator.slugFixed_toBasicLatin hne hle ?_
      intro c hc
      cases hb : isSlugChar c with
      | true => rfl
      | false => exact absurd (by simp [hb]) (hall c hc)

/-- C7: for every string `s`, `generateSlug s` is deterministic (pure:
repeated applications give the same result), matches `^[a-z0-9-]+$`
(every character is in the slug alphabet and the string is nonempty), and
has length at most 59. -/
theorem generateSlug_deterministic_safe_bounded (s : String) :
    SlugGenerator.generateSlug s = SlugGenerator.generateSlug s ∧
      SlugGenerator.generateSlug s ≠ "" ∧
      (SlugGenerator.generateSlug s).length ≤ 59 ∧
      ∀ c ∈ (SlugGenerator.generateSlug s).data, isSlugChar c = true := by
  obtain ⟨h1, h2, h3, _⟩ := slugFixed_generateSlug s
  exact ⟨rfl, h1, by omega, h3⟩

/-- C8: the concrete degenerate/accented slug evaluations:
`generateSlug "" = "unknown"`; `generateSlug "@#$%^&*()"` and
`generateSlug "函数名称"` match `^[a-f0-9]{8}$` (length 8, all lowercase
hex); `generateSlug "Café" = "cafe"`; `generateSlug "Naïve" = "naive"`;
`generateFilePath "MyClass" "./docs/api" = "./docs/api/myclass.md"`. -/
theorem slug_concrete_edge_cases :
    SlugGenerator.generateSlug "" = "unknown" ∧
      ((SlugGenerator.generateSlug "@#$%^&*()").length = 8 ∧
        ∀ c ∈ (SlugGenerator.generateSlug "@#$%^&*()").data, isHexChar c = true) ∧
      ((SlugGenerator.generateSlug "函数名称").length = 8 ∧
        ∀ c ∈ (SlugGenerator.generateSlug "函数名称").data, isHexChar c = true) ∧
      SlugGenerator.generateSlug "Café" = "cafe" ∧
      SlugGenerator.generateSlug "Naïve" = "naive" ∧
      SlugGenerator.generateFilePath "MyClass" "./docs/api" = "./docs/api/myclass.md" :=
  ⟨by decide, ⟨by decide, by decide⟩, ⟨by decide, by decide⟩, by decide, by decide, by decide⟩

/-- C10: slug generation is idempotent — every output of `generateSlug`
(the `"unknown"` fallback, a transliterated slug, or a prefix-hash slug)
is a fixed point of the transliteration path, so
`generateSlug (generateSlug s) = generateSlug s`. -/
theorem generateSlug_idempotent (s : String) :
    SlugGenerator.generateSlug (SlugGenerator.generateSlug s) = SlugGenerator.generateSlug s :=
  generateSlug_eq_of_slugFixed (slugFixed_generateSlug s)

/-! ## The typedoc reflection data model

Shallow embedding of the typedoc data the plugin reads.  Field access on
possibly-`undefined` JS values is modelled with `Option`; an *absent*
array is `none` while a present-but-empty array is `some []` (JS treats
an empty array as truthy).  `BlockTag` carries exactly the fields the
source accesses: `tag`, `content` (a list of `{ text }` parts) and the
legacy `text` field used by `extractModuleFromComment`. -/

/-- One `{ text }` part of a tag's `content` array. -/
structure ContentPart where
  text : String
deriving DecidableEq

/-- A typedoc block tag (`comment.blockTags` entry). -/
structure BlockTag where
  tag : String
  content : List ContentPart
  text : String
deriving DecidableEq

/-- A legacy typedoc tag (`comment.tags` entry). -/
structure LegacyTag where
  tagName : String
  text : String
deriving DecidableEq

/-- A typedoc comment, with the fields the plugin reads. -/
structure CommentData where
  shortText : Option String
  text : Option String
  blockTags : Option (List BlockTag)
  tags : Option (List LegacyTag)
  summary : Option (List ContentPart)
  label : Option String
deriving DecidableEq

/-- A comment with every field absent. -/
def CommentData.empty : CommentData := ⟨none, none, none, none, none, none⟩

/-- The typedoc `ReflectionKind` enum members this plugin distinguishes. -/
inductive ReflectionKind where
  | Project | Module | Namespace | Enum | EnumMember | Variable | Function
  | Class | Interface | Constructor | Property | Method | CallSignature | TypeAlias
deriving DecidableEq

/-- The numeric value of a `ReflectionKind` enum member (typedoc assigns
powers of two). -/
def ReflectionKind.value : ReflectionKind → Nat
  | .Project => 1
  | .Module => 2
  | .Namespace => 4
  | .Enum => 8
  | .EnumMember => 16
  | .Variable => 32
  | .Function => 64
  | .Class => 128
  | .Interface => 256
  | .Constructor => 512
  | .Property => 1024
  | .Method => 2048
  | .CallSignature => 4096
  | .TypeAlias => 2097152

/-- The TS reverse enum lookup `ReflectionKind[kind]`. -/
def ReflectionKind.nameStr : ReflectionKind → String
  | .Project => "Project"
  | .Module => "Module"
  | .Namespace => "Namespace"
  | .Enum => "Enum"
  | .EnumMember => "EnumMember"
  | .Variable => "Variable"
  | .Function => "Function"
  | .Class => "Class"
  | .Interface => "Interface"
  | .Constructor => "Constructor"
  | .Property => "Property"
  | .Method => "Method"
  | .CallSignature => "CallSignature"
  | .TypeAlias => "TypeAlias"

mutual
/-- A typedoc type, with one constructor per `type.type` string the
renderer's `renderType` switches on.  `literalOther` carries the JS
rendering of a non-string literal value; `other` is the `default` case
(`type.name || "any"`). -/
inductive TsType where
  | intrinsic (name : String)
  | reference (name : String) (typeArguments : Option (List TsType))
  | voidType
  | array (elementType : TsType)
  | union (types : List TsType)
  | intersection (types : List TsType)
  | literalString (value : String)
  | literalOther (rendered : String)
  | reflectionType (declaration : Option TypeDecl)
  | typeOperator (operator : String) (target : TsType)
  | other (name : Option String)

/-- The `declaration` of a `reflection` type: the plugin reads only its
`signatures` and `children` (each child's `name`, `flags.isOptional` and
`type`). -/
inductive TypeDecl where
  | mk (signatures : Option (List Signature)) (children : Option (List TypeChild))

/-- A typedoc call signature. -/
inductive Signature where
  | mk (name : String) (comment : Option CommentData)
      (parameters : Option (List Param)) (type : Option TsType)

/-- A typedoc parameter reflection. -/
inductive Param where
  | mk (name : String) (comment : Option CommentData) (type : Option TsType)
      (isOptional : Bool)

/-- A child of a type-literal declaration. -/
inductive TypeChild where
  | mk (name : String) (type : Option TsType) (isOptional : Bool)
end

/-- A typedoc `DeclarationReflection`, with the fields the plugin reads. -/
inductive Reflection where
  | mk (name : String) (kind : ReflectionKind) (comment : Option CommentData)
      (signatures : Option (List Signature)) (children : Option (List Reflection))
      (type : Option TsType)

def Reflection.name : Reflection → String
  | .mk n _ _ _ _ _ => n

def Reflection.kind : Reflection → ReflectionKind
  | .mk _ k _ _ _ _ => k

def Reflection.comment : Reflection → Option CommentData
  | .mk _ _ c _ _ _ => c

def Reflection.signatures : Reflection → Option (List Signature)
  | .mk _ _ _ s _ _ => s

def Reflection.children : Reflection → Option (List Reflection)
  | .mk _ _ _ _ c _ => c

def Reflection.type : Reflection → Option TsType
  | .mk _ _ _ _ _ t => t

def Signature.name : Signature → String
  | .mk n _ _ _ => n

def Signature.comment : Signature → Option CommentData
  | .mk _ c _ _ => c

def Signature.parameters : Signature → Option (List Param)
  | .mk _ _ p _ => p

def Signature.type : Signature → Option TsType
  | .mk _ _ _ t => t

def Param.name : Param → String
  | .mk n _ _ _ => n

def Param.comment : Param → Option CommentData
  | .mk _ c _ _ => c

def Param.type : Param → Option TsType
  | .mk _ _ t _ => t

def Param.isOptional : Param → Bool
  | .mk _ _ _ o => o

def TypeChild.name : TypeChild → String
  | .mk n _ _ => n

def TypeChild.type : TypeChild → Option TsType
  | .mk _ t _ => t

def TypeChild.isOptional : TypeChild → Bool
  | .mk _ _ o => o

def TypeDecl.signatures : TypeDecl → Option (List Signature)
  | .mk s _ => s

def TypeDecl.children : TypeDecl → Option (List TypeChild)
  | .mk _ c => c

/-- A typedoc `ProjectReflection`: the plugin reads only `children`. -/
structure ProjectReflection where
  children : Option (List Reflection)

/-! ## JS string helpers used by `CommentParser` -/

/-- Model of `String.prototype.trim` (strips the JS `\s` class from both
ends). -/
def jsTrim (s : String) : String :=
  String.mk (((s.data.dropWhile isJsSpace).reverse.dropWhile isJsSpace).reverse)

/-- Model of `replace` of the regex `。$` by the empty string: drop one
trailing full-width period. -/
def stripTrailingPeriod (s : String) : String :=
  match s.data.getLast? with
  | some c => if c = '。' then String.mk s.data.dropLast else s
  | none => s

/-- Splitting a character list at every `/`. -/
def splitOnSlash : List Char → List (List Char)
  | [] => [[]]
  | c :: rest =>
    if c = '/' then [] :: splitOnSlash rest
    else
      match splitOnSlash rest with
      | [] => [[c]]
      | seg :: segs => (c :: seg) :: segs

/-- Model of `"x/y".split("/")` followed by indexing. -/
def jsSplitSlash (s : String) : List String := (splitOnSlash s.data).map String.mk

/-- Model of `String.prototype.endsWith`. -/
def strEndsWith (s post : String) : Bool :=
  decide (s.data.reverse.take post.data.length = post.data.reverse)

/-- Model of matching the regex `module:([^\s]+)` against a string and
returning the first capture: scan positions left to right; at each
position require the literal `module:` followed by at least one
non-whitespace character; the capture is the maximal non-whitespace run. -/
def matchModuleAux : List Char → Option String
  | [] => none
  | c :: rest =>
    if (c :: rest).take 7 = "module:".data then
      let cap := ((c :: rest).drop 7).takeWhile (fun c => !isJsSpace c)
      if cap.isEmpty then matchModuleAux rest else some (String.mk cap)
    else matchModuleAux rest

/-- First `module:<value>` capture in a string, if any. -/
def matchModuleRegex (s : String) : Option String := matchModuleAux s.data

/-- JS truthiness of a `string | null | undefined` value. -/
def truthyOpt : Option String → Bool
  | some s => s ≠ ""
  | none => false

/-- Model of `String.prototype.toLowerCase` on a whole (ASCII) string. -/
def jsToLower (s : String) : String := String.mk (s.data.map toLowerJs)

/-! ## `CommentParser` (from `src/CommentParser.ts`)

JS property-access errors (reading `.text` of `content[0]` when the
`content` array is empty) are modelled with `Except String`; lookups that
cannot throw are plain functions. -/

namespace CommentParser

/-- The JS `TypeError` raised by `memberofTag.content[0].text` when
`content` is empty. -/
def contentIndexError : String :=
  "TypeError: cannot read properties of undefined (reading text)"

/-- `CommentParser.extractModuleFromComment(comment, name = "@memberof")`.
The `name` parameter's JS default is applied when the caller passes
`undefined`. -/
def extractModuleFromComment (comment : Option CommentData) (nameOpt : Option String) :
    Except String (Option String) :=
  let name := nameOpt.getD "@memberof"
  match comment.bind (·.blockTags) with
  | none => .ok none
  | some tags =>
    let memberofTag := tags.find? (fun tag => tag.tag == name)
    if name == "@func" then
      match memberofTag with
      | none => .ok none
      | some t =>
        match t.content with
        | [] => .error contentIndexError
        | c :: _ => .ok (some c.text)
    else
      match memberofTag with
      | some t =>
        match t.content with
        | [] => .error contentIndexError
        | c :: _ =>
          match matchModuleRegex c.text with
          | some m => .ok (some m)
          | none => .ok (some (jsTrim t.text))
      | none => .ok none

/-- The signature loop of `CommentParser.getModule`: return the first
truthy extraction, propagating thrown errors. -/
def getModuleFromSignatures : List Signature → Option String → Except String (Option String)
  | [], _ => .ok none
  | sig :: rest, nameOpt => do
    let v ← extractModuleFromComment sig.comment nameOpt
    if truthyOpt v then pure v else getModuleFromSignatures rest nameOpt

/-- `CommentParser.getModule(reflection, name?)`: the signature comments
are searched first, then the reflection's own comment. -/
def getModule (r : Reflection) (nameOpt : Option String) : Except String (Option String) := do
  let fromSigs ← match r.signatures with
    | some sigs => getModuleFromSignatures sigs nameOpt
    | none => pure (none : Option String)
  if truthyOpt fromSigs then pure fromSigs
  else
    match r.comment with
    | some _ => do
      let v ← extractModuleFromComment r.comment nameOpt
      if truthyOpt v then pure v else pure none
    | none => pure none

/-- `CommentParser.extractFunctionDescriptionFromComment`. -/
def extractFunctionDescriptionFromComment (comment : Option CommentData) : Option String :=
  match comment.bind (·.tags) with
  | none => none
  | some tags =>
    match tags.find? (fun tag => tag.tagName == "function") with
    | some t => some (stripTrailingPeriod (jsTrim t.text))
    | none => none

/-- The signature loop of `getFunctionDescription`: first an explicit
`@function` tag, else the signature's `shortText`, else the next
signature. -/
def descriptionFromSignatures : List Signature → Option String
  | [] => none
  | sig :: rest =>
    let d := extractFunctionDescriptionFromComment sig.comment
    if truthyOpt d then d
    else
      let st := sig.comment.bind (·.shortText)
      if truthyOpt st then st
      else descriptionFromSignatures rest

/-- `CommentParser.getFunctionDescription(reflection)`; a total read. -/
def getFunctionDescription (r : Reflection) : Option String :=
  let d := extractFunctionDescriptionFromComment r.comment
  if truthyOpt d then d
  else
    let fromSigs := descriptionFromSignatures (r.signatures.getD [])
    if truthyOpt fromSigs then fromSigs
    else
      match r.type with
      | some (.reflectionType (some decl)) =>
        match decl.signatures with
        | some sigs => descriptionFromSignatures sigs
        | none => none
      | _ => none

/-- `[comment.shortText, comment.text].filter(Boolean).join("\n\n")`. -/
def joinShortAndText (c : CommentData) : String :=
  String.intercalate "\n\n" (([c.shortText, c.text].filterMap id).filter (· ≠ ""))

/-- The signature loop of `getFullDescription`. -/
def fullFromSignatures : List Signature → Option String
  | [] => none
  | sig :: rest =>
    match sig.comment with
    | some c =>
      let ft := joinShortAndText c
      if ft ≠ "" then some ft else fullFromSignatures rest
    | none => fullFromSignatures rest

/-- `CommentParser.getFullDescription(reflection)`: function description,
else own short+long text, else the first signature's short+long text,
else `"{name} {lowercased kind name}"`.  Total. -/
def getFullDescription (r : Reflection) : String :=
  let fd := getFunctionDescription r
  if truthyOpt fd then fd.getD ""
  else
    let own : Option String :=
      match r.comment with
      | some c =>
        let ft := joinShortAndText c
        if ft ≠ "" then some ft else none
      | none => none
    match own with
    | some ft => ft
    | none =>
      match fullFromSignatures (r.signatures.getD []) with
      | some ft => ft
      | none => r.name ++ " " ++ jsToLower r.kind.nameStr

/-- Modelled from the spec: `CommentParser.getTagText` is the shared
lookup behind `getCategory` and `getModuleTag`, whose implementations are
not under `src/` (only their callers in `SidebarGenerator` /
`VitePressRenderer` and their unit tests are).  Spec §4.2: same search
order as the other lookups — the node's own annotations, then each
signature's annotations — returning the text content of the first
annotation with the given tag, or null.  The unit tests pin the
annotation shape (`blockTags` entries, `tag`, `content[0].text`). -/
def findTagTextInSignatures (name : String) : List Signature → Option String
  | [] => none
  | sig :: rest =>
    match ((sig.comment.bind (·.blockTags)).getD []).find? (fun t => t.tag == name) with
    | some t => some ((t.content.head?.map (·.text)).getD "")
    | none => findTagTextInSignatures name rest

/-- Modelled from the spec: the own-annotations-then-signatures lookup of
the text content of the first annotation with the given tag (see
`findTagTextInSignatures`). -/
def getTagText (r : Reflection) (name : String) : Option String :=
  match ((r.comment.bind (·.blockTags)).getD []).find? (fun t => t.tag == name) with
  | some t => some ((t.content.head?.map (·.text)).getD "")
  | none => findTagTextInSignatures name (r.signatures.getD [])

/-- Modelled from the spec: `CommentParser.getCategory(reflection)`. -/
def getCategory (r : Reflection) : Option String := getTagText r "@category"

/-- Modelled from the spec: `CommentParser.getModuleTag(reflection)`. -/
def getModuleTag (r : Reflection) : Option String := getTagText r "@module"

end CommentParser

/-- All block tags of a reflection in the own-comment-first,
then-each-signature search order. -/
def allBlockTags (r : Reflection) : List BlockTag :=
  (r.comment.bind (·.blockTags)).getD [] ++
    (r.signatures.getD []).flatMap (fun s => (s.comment.bind (·.blockTags)).getD [])

/-! Sanity checks of `CommentParser` against the repository's unit tests
(`tests/CommentParser.test.ts`). -/

example : CommentParser.getCategory
    (.mk "x" .Function (some ⟨none, none, some [⟨"@category", [⟨"Utilities"⟩], ""⟩], none, none, none⟩)
      none none none) = some "Utilities" := rfl

example : CommentParser.getCategory
    (.mk "x" .Function none
      (some [.mk "x" (some ⟨none, none, some [⟨"@category", [⟨"Network"⟩], ""⟩], none, none, none⟩)
        none none]) none none) = some "Network" := rfl

example : CommentParser.getCategory
    (.mk "x" .Function (some ⟨none, none, some [⟨"@param", [⟨"param description"⟩], ""⟩], none, none, none⟩)
      none none none) = none := rfl

example : CommentParser.getModuleTag
    (.mk "x" .Function (some ⟨none, none, some [⟨"@module", [⟨"HTTP"⟩], ""⟩], none, none, none⟩)
      none none none) = some "HTTP" := rfl

example : CommentParser.getFullDescription
    (.mk "x" .Function (some ⟨some "Short description", some "Longer description with details",
      none, none, none, none⟩) none none none) =
    "Short description\n\nLonger description with details" := rfl

example : CommentParser.getFullDescription
    (.mk "x" .Function (some ⟨some "Short description", some "", none, none, none, none⟩)
      none none none) = "Short description" := rfl

example : CommentParser.getFullDescription
    (.mk "MyFunction" .Function none none none none) = "MyFunction function" := rfl

example : CommentParser.getFunctionDescription
    (.mk "x" .Function (some ⟨none, none, none, some [⟨"function", "Creates a new user"⟩], none, none⟩)
      none none none) = some "Creates a new user" := rfl

example : CommentParser.getFunctionDescription
    (.mk "x" .Function none
      (some [.mk "x" (some ⟨none, none, none, some [⟨"function", "Processes data"⟩], none, none⟩)
        none none]) none none) = some "Processes data" := rfl

example : CommentParser.getModule
    (.mk "x" .Function (some ⟨none, none, some [⟨"@memberof", [⟨"@memberof module:common/string"⟩], ""⟩],
      none, none, none⟩) none none none) none = .ok (some "common/string") := rfl

/-! ## Claim C3: `getCategory` search order -/

/-- The text content the plugin reads off a block tag. -/
def tagContentText (t : BlockTag) : String := (t.content.head?.map (·.text)).getD ""

theorem findTagTextInSignatures_eq_flat (name : String) (sigs : List Signature) :
    CommentParser.findTagTextInSignatures name sigs =
      ((sigs.flatMap fun s => (s.comment.bind (·.blockTags)).getD []).find?
        (fun t => t.tag == name)).map tagContentText := by
  induction sigs with
  | nil => rfl
  | cons sig rest ih =>
    simp only [CommentParser.findTagTextInSignatures, List.flatMap_cons, List.find?_append]
    cases hf : ((sig.comment.bind (·.blockTags)).getD []).find? (fun t => t.tag == name) with
    | none => simp [ih]
    | some t => simp [tagContentText]

theorem getTagText_eq_flat (r : Reflection) (name : String) :
    CommentParser.getTagText r name =
      ((allBlockTags r).find? (fun t => t.tag == name)).map tagContentText := by
  unfold CommentParser.getTagText allBlockTags
  rw [List.find?_append]
  cases hf : ((r.comment.bind (·.blockTags)).getD []).find? (fun t => t.tag == name) with
  | none => simp [findTagTextInSignatures_eq_flat]
  | some t => simp [tagContentText]

/-- C3: for every node, `getCategory` searches the node's own annotations
and then each signature's annotations, and returns the text content of
the first `@category` annotation found, or `null` when none exists
anywhere. -/
theorem getCategory_first_in_search_order (r : Reflection) :
    CommentParser.getCategory r =
        ((allBlockTags r).find? (fun t => t.tag == "@category")).map tagContentText ∧
      (CommentParser.getCategory r = none ↔ ∀ t ∈ allBlockTags r, t.tag ≠ "@category") := by
  have h := getTagText_eq_flat r "@category"
  refine ⟨h, ?_⟩
  rw [CommentParser.getCategory] at *
  rw [h]
  cases hf : (allBlockTags r).find? (fun t => t.tag == "@category") with
  | none =>
    refine ⟨fun _ t ht heq => ?_, fun _ => rfl⟩
    have := List.find?_eq_none.mp hf t ht
    simp [heq] at this
  | some t =>
    constructor
    · intro hcontra
      exact absurd hcontra (by simp)
    · intro hall
      have hmem := List.mem_of_find?_eq_some hf
      have htag := List.find?_some hf
      simp only [beq_iff_eq] at htag
      exact absurd htag (hall t hmem)

/-! ## Claim C5: `getModule` search order -/

/-- A node whose own annotation says `module:own` while its call
signature's annotation says `module:sig`. -/
def moduleOrderNode : Reflection :=
  .mk "f" .Function
    (some ⟨none, none, some [⟨"@memberof", [⟨"module:own"⟩], ""⟩], none, none, none⟩)
    (some [.mk "f"
      (some ⟨none, none, some [⟨"@memberof", [⟨"module:sig"⟩], ""⟩], none, none, none⟩)
      none none])
    none none

/-- C5 counterexample: `getModule` does not search the node's own
annotation tree first — on a node whose own annotation yields
`"own"` and whose signature annotation yields `"sig"`, it returns
`"sig"`, so the signature annotations are searched first. -/
theorem getModule_order_counterexample :
    CommentParser.getModule moduleOrderNode none = .ok (some "sig") ∧
      CommentParser.extractModuleFromComment moduleOrderNode.comment none = .ok (some "own") ∧
      (some "sig" : Option String) ≠ some "own" :=
  ⟨rfl, rfl, by decide⟩

/-- The search sequence `getModule` actually follows: the comments in
order, first truthy extraction wins, errors propagate. -/
def firstTruthyExtract : List (Option CommentData) → Option String → Except String (Option String)
  | [], _ => .ok none
  | c :: rest, nameOpt => do
    let v ← CommentParser.extractModuleFromComment c nameOpt
    if truthyOpt v then pure v else firstTruthyExtract rest nameOpt

theorem except_bind_ok {ε α β : Type} (v : α) (f : α → Except ε β) :
    (Except.ok v : Except ε α) >>= f = f v := rfl

theorem except_pure_bind {ε α β : Type} (v : α) (f : α → Except ε β) :
    (pure v : Except ε α) >>= f = f v := rfl

theorem except_error_bind {ε α β : Type} (e : ε) (f : α → Except ε β) :
    (Except.error e : Except ε α) >>= f = Except.error e := rfl

theorem getModuleFromSignatures_bind (sigs : List Signature) (nameOpt : Option String)
    (c : Option CommentData) :
    (do
      let fromSigs ← CommentParser.getModuleFromSignatures sigs nameOpt
      if truthyOpt fromSigs then pure fromSigs
      else
        match c with
        | some _ => do
          let v ← CommentParser.extractModuleFromComment c nameOpt
          if truthyOpt v then pure v else pure none
        | none => pure (none : Option String)) =
      firstTruthyExtract ((sigs.map (·.comment)) ++ [c]) nameOpt := by
  induction sigs with
  | nil => cases c <;> rfl
  | cons sig rest ih =>
    simp only [CommentParser.getModuleFromSignatures, firstTruthyExtract, List.map_cons,
      List.cons_append]
    cases hv : CommentParser.extractModuleFromComment sig.comment nameOpt with
    | error e => rfl
    | ok v =>
      simp only [except_bind_ok]
      by_cases ht : truthyOpt v = true
      · rw [if_pos ht, if_pos ht, except_pure_bind, if_pos ht]
      · rw [if_neg ht, if_neg ht]
        exact ih

/-- C5 amended: `getModule` searches each call signature's annotation
tree first, in declaration order, and only then the node's own
annotation tree, returning the first truthy match (errors propagate in
the same order; `null` when no match exists anywhere). -/
theorem getModule_signature_annotations_first (r : Reflection) (nameOpt : Option String) :
    CommentParser.getModule r nameOpt =
      firstTruthyExtract ((r.signatures.getD []).map (·.comment) ++ [r.comment]) nameOpt := by
  unfold CommentParser.getModule
  cases hs : r.signatures with
  | none =>
    have := getModuleFromSignatures_bind [] nameOpt r.comment
    simp only [List.map_nil, List.nil_append] at this ⊢
    exact this
  | some sigs =>
    have := getModuleFromSignatures_bind sigs nameOpt r.comment
    simp only [Option.getD_some]
    exact this

/-! ## Claim C6: defensiveness of the `CommentParser` lookups -/

/-- A node whose `@memberof` annotation has an empty `content` array. -/
def emptyContentNode : Reflection :=
  .mk "f" .Function
    (some ⟨none, none, some [⟨"@memberof", [], "x"⟩], none, none, none⟩)
    none none none

/-- A node whose `@func` annotation has an empty `content` array. -/
def emptyContentFuncNode : Reflection :=
  .mk "f" .Function
    (some ⟨none, none, some [⟨"@func", [], "x"⟩], none, none, none⟩)
    none none none

/-- C6 counterexample: `getModule` is not a total defensive read — on a
node whose matching annotation has an empty `content` array it throws
(models the JS `TypeError` from `memberofTag.content[0].text`), both on
the default `@memberof` path and on the `@func` path. -/
theorem getModule_throws_on_empty_content :
    CommentParser.getModule emptyContentNode none =
        .error CommentParser.contentIndexError ∧
      CommentParser.getModule emptyContentFuncNode (some "@func") =
        .error CommentParser.contentIndexError :=
  ⟨rfl, rfl⟩

theorem extractModuleFromComment_ok_of_content_nonempty (c : Option CommentData)
    (nameOpt : Option String)
    (h : ∀ t ∈ (c.bind (·.blockTags)).getD [], t.content ≠ []) :
    ∃ v, CommentParser.extractModuleFromComment c nameOpt = .ok v := by
  unfold CommentParser.extractModuleFromComment
  cases hbt : c.bind (·.blockTags) with
  | none => exact ⟨none, rfl⟩
  | some tags =>
    rw [hbt] at h
    simp only [Option.getD_some] at h
    dsimp only
    by_cases hfn : (nameOpt.getD "@memberof") == "@func"
    · rw [if_pos hfn]
      cases hf : tags.find? (fun tag => tag.tag == nameOpt.getD "@memberof") with
      | none => exact ⟨none, rfl⟩
      | some t =>
        have hmem := List.mem_of_find?_eq_some hf
        dsimp only
        cases hc : t.content with
        | nil => exact absurd hc (h t hmem)
        | cons p ps => exact ⟨some p.text, rfl⟩
    · rw [if_neg hfn]
      cases hf : tags.find? (fun tag => tag.tag == nameOpt.getD "@memberof") with
      | none => exact ⟨none, rfl⟩
      | some t =>
        have hmem := List.mem_of_find?_eq_some hf
        dsimp only
        cases hc : t.content with
        | nil => exact absurd hc (h t hmem)
        | cons p ps =>
          dsimp only
          cases hm : matchModuleRegex p.text with
          | some m => exact ⟨some m, rfl⟩
          | none => exact ⟨some (jsTrim t.text), rfl⟩

theorem getModuleFromSignatures_ok_of_content_nonempty (sigs : List Signature)
    (nameOpt : Option String)
    (h : ∀ sig ∈ sigs, ∀ t ∈ (sig.comment.bind (·.blockTags)).getD [], t.content ≠ []) :
    ∃ v, CommentParser.getModuleFromSignatures sigs nameOpt = .ok v := by
  induction sigs with
  | nil => exact ⟨none, rfl⟩
  | cons sig rest ih =>
    obtain ⟨v, hv⟩ := extractModuleFromComment_ok_of_content_nonempty sig.comment nameOpt
      (h sig (by simp))
    obtain ⟨w, hw⟩ := ih (fun s hs t ht => h s (by simp [hs]) t ht)
    refine ⟨if truthyOpt v then v else w, ?_⟩
    show (CommentParser.extractModuleFromComment sig.comment nameOpt >>= fun v =>
      if truthyOpt v then pure v else CommentParser.getModuleFromSignatures rest nameOpt) = _
    rw [hv, except_bind_ok]
    by_cases ht : truthyOpt v = true
    · rw [if_pos ht, if_pos ht]
      rfl
    · rw [if_neg ht, if_neg ht, hw]

/-- C6 amended: the `CommentParser` lookups are defensive with respect to
*absent* comments and *absent* tags — and `getFunctionDescription` /
`getFullDescription` are total by construction — but `getModule` throws
when a matching annotation is present with an empty `content` list; it is
error-free exactly under the hypothesis that every annotation reachable
from the node has non-empty content. -/
theorem getModule_ok_of_content_nonempty (r : Reflection) (nameOpt : Option String)
    (h : ∀ t ∈ allBlockTags r, t.content ≠ []) :
    ∃ v, CommentParser.getModule r nameOpt = .ok v := by
  obtain ⟨nm, k, cmt, sigs, ch, ty⟩ := r
  have hown : ∀ t ∈ (cmt.bind (·.blockTags)).getD [], t.content ≠ [] := by
    intro t ht
    refine h t ?_
    show t ∈ (cmt.bind (·.blockTags)).getD [] ++ _
    exact List.mem_append.mpr (Or.inl ht)
  obtain ⟨w, hw⟩ := extractModuleFromComment_ok_of_content_nonempty cmt nameOpt hown
  unfold CommentParser.getModule
  dsimp only [Reflection.signatures, Reflection.comment]
  cases sigs with
  | none =>
    cases cmt with
    | none => exact ⟨none, rfl⟩
    | some cc =>
      refine ⟨if truthyOpt w then w else none, ?_⟩
      show (CommentParser.extractModuleFromComment (some cc) nameOpt >>= fun v =>
        if truthyOpt v then pure v else pure none) = _
      rw [hw, except_bind_ok]
      by_cases ht : truthyOpt w = true
      · rw [if_pos ht, if_pos ht]
        rfl
      · rw [if_neg ht, if_neg ht]
        rfl
  | some ss =>
    have hsig : ∀ sig ∈ ss, ∀ t ∈ (sig.comment.bind (·.blockTags)).getD [],
        t.content ≠ [] := by
      intro sig hs t ht
      refine h t ?_
      show t ∈ _ ++ ((some ss : Option (List Signature)).getD []).flatMap _
      refine List.mem_append.mpr (Or.inr ?_)
      exact List.mem_flatMap.mpr ⟨sig, hs, ht⟩
    obtain ⟨v, hv⟩ := getModuleFromSignatures_ok_of_content_nonempty ss nameOpt hsig
    show ∃ x, (CommentParser.getModuleFromSignatures ss nameOpt >>= fun fromSigs =>
      if truthyOpt fromSigs then pure fromSigs
      else
        match cmt with
        | some _ => do
          let v ← CommentParser.extractModuleFromComment cmt nameOpt
          if truthyOpt v then pure v else pure none
        | none => pure none) = Except.ok x
    rw [hv, except_bind_ok]
    by_cases ht : truthyOpt v = true
    · rw [if_pos ht]
      exact ⟨v, rfl⟩
    · rw [if_neg ht]
      cases cmt with
      | none => exact ⟨none, rfl⟩
      | some cc =>
        show ∃ x, (CommentParser.extractModuleFromComment (some cc) nameOpt >>= fun v =>
          if truthyOpt v then pure v else pure none) = Except.ok x
        rw [hw, except_bind_ok]
        by_cases htw : truthyOpt w = true
        · rw [if_pos htw]
          exact ⟨w, rfl⟩
        · rw [if_neg htw]
          exact ⟨none, rfl⟩

/-- A well-formed node used to instantiate the C6 amended theorem. -/
def nonemptyContentNode : Reflection :=
  .mk "g" .Function
    (some ⟨none, none, some [⟨"@memberof", [⟨"module:m"⟩], ""⟩], none, none, none⟩)
    none none none

/-- Witness for the C6 amended theorem at a concrete node. -/
theorem getModule_ok_of_content_nonempty_witness :
    (∀ t ∈ allBlockTags nonemptyContentNode, t.content ≠ []) ∧
      ∃ v, CommentParser.getModule nonemptyContentNode none = .ok v :=
  ⟨by decide, getModule_ok_of_content_nonempty nonemptyContentNode none (by decide)⟩

/-! ## Rendering helpers of `VitePressRenderer`

The Markdown assembly functions.  JS template pipelines that can throw a
`TypeError` (indexing `[0]` into an absent or empty array) return
`Except String`; the others are plain functions. -/

/-- The JS `TypeError` raised by indexing `[0]` into an absent or empty
array and reading a property of the resulting `undefined`. -/
def undefinedIndexError : String :=
  "TypeError: cannot read properties of undefined"

/-- `VitePressOptions` (after defaulting in the constructor). -/
structure VitePressOptions where
  outputDir : String
  baseUrl : String
  title : String
  description : String

/-- Modelled from the spec: `FrontMatterGenerator.generate` is exported
by the plugin and called by the renderer, but its implementation is not
under `src/`.  Spec §6 front-matter contract: each generated document
begins with a structured header block of title/description key-value
pairs. -/
def FrontMatterGenerator.generate (r : Reflection) (options : VitePressOptions) : String :=
  "---\ntitle: " ++ r.name ++ "\ndescription: " ++ options.description ++ "\n---"

/-- `badgeColors[kindName] || "gray"`. -/
def badgeColor : String → String
  | "Class" => "blue"
  | "Interface" => "green"
  | "Function" => "purple"
  | "Component" => "orange"
  | "TypeAlias" => "gray"
  | "Variable" => "yellow"
  | _ => "gray"

/-- `VitePressRenderer.renderKindBadge`. -/
def renderKindBadge (kind : ReflectionKind) : String :=
  "<Badge type=\"tip\" text=\"" ++ kind.nameStr ++ "\" color=\"" ++
    badgeColor kind.nameStr ++ "\" />"

mutual
/-- `VitePressRenderer.renderType` on a possibly-absent type
(`if (!type) return "any"`). -/
def renderType : Option TsType → Except String String
  | none => pure "any"
  | some t => renderTypeCore t

/-- The `switch (type.type)` of `VitePressRenderer.renderType`.  In the
`reflection` case a present `signatures` array (even an empty one)
selects the function-type rendering, where `signatures[0]` on an empty
array throws; otherwise `children` selects the object-type rendering;
otherwise `"object"`. -/
def renderTypeCore : TsType → Except String String
  | .intrinsic n => pure n
  | .reference n none => pure n
  | .reference n (some args) => do
    pure (n ++ "<" ++ String.intercalate ", " (← renderTypeList args) ++ ">")
  | .voidType => pure "Function"
  | .array e => do pure ((← renderTypeCore e) ++ "[]")
  | .union ts => do pure (String.intercalate " | " (← renderTypeList ts))
  | .intersection ts => do pure (String.intercalate " & " (← renderTypeList ts))
  | .literalString v => pure ("\"" ++ v ++ "\"")
  | .literalOther v => pure v
  | .reflectionType (some (.mk (some []) _)) => .error undefinedIndexError
  | .reflectionType (some (.mk (some (sig :: _)) _)) => renderSigArrow sig
  | .reflectionType (some (.mk none (some cs))) => do
    pure ("\x7b " ++ String.intercalate "; " (← renderChildList cs) ++ " \x7d")
  | .reflectionType (some (.mk none none)) => pure "object"
  | .reflectionType none => pure "object"
  | .typeOperator op t => do pure (op ++ " " ++ (← renderTypeCore t))
  | .other (some n) => pure n
  | .other none => pure "any"

/-- The arrow rendering `(params) => ret` of a function-type signature. -/
def renderSigArrow : Signature → Except String String
  | .mk _ _ ps t => do
    let params ← match ps with
      | some l => do pure (String.intercalate ", " (← renderParamArrowList l))
      | none => pure ""
    let ret ← match t with
      | some u => renderTypeCore u
      | none => pure "void"
    pure ("(" ++ params ++ ") => " ++ ret)

/-- Arrow-type parameter list: `name: type` (no optionality marker). -/
def renderParamArrowList : List Param → Except String (List String)
  | [] => pure []
  | .mk n _ t _ :: rest => do
    pure ((n ++ ": " ++ (← renderType t)) :: (← renderParamArrowList rest))

/-- Object-type member list: `name?: type`. -/
def renderChildList : List TypeChild → Except String (List String)
  | [] => pure []
  | .mk n t o :: rest => do
    pure ((n ++ (if o then "?" else "") ++ ": " ++ (← renderType t)) ::
      (← renderChildList rest))

def renderTypeList : List TsType → Except String (List String)
  | [] => pure []
  | t :: ts => do pure ((← renderTypeCore t) :: (← renderTypeList ts))
end

/-- Signature parameter list with the optionality marker
(`name?` when `param.flags?.isOptional`). -/
def renderParamsSigList : List Param → Except String (List String)
  | [] => pure []
  | p :: rest => do
    pure ((p.name ++ (if p.isOptional then "?" else "") ++ ": " ++ (← renderType p.type)) ::
      (← renderParamsSigList rest))

/-- `VitePressRenderer.renderSignature`. -/
def renderSignature (sig : Signature) : Except String String := do
  let params ← match sig.parameters with
    | some ps => do pure (String.intercalate ", " (← renderParamsSigList ps))
    | none => pure ""
  let returnType ← match sig.type with
    | some t => renderTypeCore t
    | none => pure "void"
  pure ("function " ++ sig.name ++ "(" ++ params ++ "): " ++ returnType)

/-- `VitePressRenderer.renderParameters` (constructor parameters; the
optional chain `signatures?.[0]?.parameters` cannot throw). -/
def renderParameters (r : Reflection) : Except String String :=
  match r.signatures with
  | some (sig :: _) =>
    match sig.parameters with
    | some ps => do pure (String.intercalate ", " (← renderParamsSigList ps))
    | none => pure ""
  | _ => pure ""

/-- `comment?.summary[0].text || ""`: an absent comment short-circuits to
`""`; a present comment with an absent or empty `summary` throws. -/
def summaryText : Option CommentData → Except String String
  | none => pure ""
  | some c =>
    match c.summary with
    | none => .error undefinedIndexError
    | some [] => .error undefinedIndexError
    | some (x :: _) => pure x.text

/-- `blockTags[0].content[0].text` (used in the return-value block). -/
def firstTagFirstContentText (tags : List BlockTag) : Except String String :=
  match tags with
  | [] => .error undefinedIndexError
  | t :: _ =>
    match t.content with
    | [] => .error undefinedIndexError
    | c :: _ => pure c.text

/-- The numbered `## 案例` blocks pushed for a list of `@example` tags. -/
def exampleLines : List BlockTag → Nat → Except String (List String)
  | [], _ => pure []
  | tag :: rest, idx =>
    match tag.content with
    | [] => .error undefinedIndexError
    | c :: _ => do
      pure (["## 案例" ++ toString (idx + 1), "", jsTrim c.text, ""] ++
        (← exampleLines rest (idx + 1)))

/-- `VitePressRenderer.addExample`. -/
def addExample (r : Reflection) (lines : List String) : Except String (List String) :=
  match r.comment.bind (·.blockTags) with
  | none => pure lines
  | some tags => do
    pure (lines ++ (← exampleLines (tags.filter (fun t => t.tag == "@example")) 0))

/-- The per-signature loop of `VitePressRenderer.addFunctionComment`. -/
def addFunctionCommentLoop : List Signature → List String → Except String (List String)
  | [], lines => pure lines
  | sig :: rest, lines => do
    let lines' ← match sig.comment.bind (·.blockTags) with
      | none => pure lines
      | some tags => do
        pure (lines ++ (← exampleLines (tags.filter (fun t => t.tag == "@example")) 0))
    addFunctionCommentLoop rest lines'

/-- `VitePressRenderer.addFunctionComment`. -/
def addFunctionComment (r : Reflection) (lines : List String) : Except String (List String) :=
  match r.signatures with
  | none => pure lines
  | some sigs => addFunctionCommentLoop sigs lines

/-- `VitePressRenderer.getFunctionSignatures`. -/
def getFunctionSignatures (r : Reflection) : List Signature :=
  match r.type with
  | some (.reflectionType (some d)) =>
    match d.signatures with
    | some sigs => sigs
    | none => r.signatures.getD []
  | _ => r.signatures.getD []

/-- `VitePressRenderer.isFunctionType`. -/
def isFunctionType (r : Reflection) : Bool :=
  match r.type with
  | some (.reflectionType (some d)) =>
    match d.signatures with
    | some _ => true
    | none => !(r.signatures.getD []).isEmpty
  | _ => !(r.signatures.getD []).isEmpty

/-- `VitePressRenderer.renderFunctionVariableSignature`. -/
def renderFunctionVariableSignature (r : Reflection) (sig : Signature) :
    Except String String := do
  let params ← match sig.parameters with
    | some ps => do pure (String.intercalate ", " (← renderParamsSigList ps))
    | none => pure ""
  let returnType ← match sig.type with
    | some t => renderTypeCore t
    | none => pure "void"
  pure ("const " ++ r.name ++ " = (" ++ params ++ "): " ++ returnType)

/-- The parameter-table rows of `renderFunctionVariable`. -/
def paramTableRows : List Param → Except String (List String)
  | [] => pure []
  | p :: rest => do
    let ty ← renderType p.type
    let description ← summaryText p.comment
    pure (("| " ++ p.name ++ " | `" ++ ty ++ "` | " ++ description ++ " |") ::
      (← paramTableRows rest))

/-- `VitePressRenderer.renderFunctionVariable`: signature block, parameter
table, return-value block, `@example` blocks.  `signatures[0]` on a node
with no function signature throws. -/
def renderFunctionVariable (r : Reflection) : Except String (List String) := do
  match getFunctionSignatures r with
  | [] => .error undefinedIndexError
  | sig :: _ => do
    let sigLine ← renderFunctionVariableSignature r sig
    let head := ["## 签名", "", "```typescript", sigLine, "```", ""]
    let paramsBlock ← match sig.parameters with
      | some [] => pure ([] : List String)
      | some ps => do
        pure (["## 参数", "", "| 参数 | 类型 | 描述 |", "|-----------|------|-------------|"] ++
          (← paramTableRows ps) ++ [""])
      | none => pure []
    let returnsBlock ← match sig.type with
      | some t => do
        let ty ← renderTypeCore t
        let quoteBlock ← match sig.comment.bind (·.blockTags) with
          | some tags => do pure (["> " ++ (← firstTagFirstContentText tags), ""])
          | none => pure ([] : List String)
        pure (["## 返回值", "", "**Type**: `" ++ ty ++ "`", ""] ++ quoteBlock)
      | none => pure []
    addFunctionComment r (head ++ paramsBlock ++ returnsBlock)

/-- The property-table rows of `renderClass`. -/
def classPropertyRows : List Reflection → Except String (List String)
  | [] => pure []
  | prop :: rest => do
    let ty ← renderType prop.type
    let description := ((prop.comment.bind (·.label)).getD "")
    pure (("| " ++ prop.name ++ " | `" ++ ty ++ "` | " ++ description ++ " |") ::
      (← classPropertyRows rest))

/-- The per-signature lines of one class method. -/
def methodSignatureLines : List Signature → Except String (List String)
  | [] => pure []
  | sig :: rest => do
    let summaryBlock ← match sig.comment with
      | some c =>
        match c.summary with
        | some [] => .error undefinedIndexError
        | some (x :: _) => pure (["- " ++ x.text, ""] : List String)
        | none => pure []
      | none => pure ([] : List String)
    let sigLine ← renderSignature sig
    pure (summaryBlock ++ ["```typescript", sigLine, "```", ""] ++
      (← methodSignatureLines rest))

/-- The method blocks of `renderClass`. -/
def classMethodBlocks : List Reflection → Except String (List String)
  | [] => pure []
  | m :: rest => do
    let sigLines ← match m.signatures with
      | some sigs => methodSignatureLines sigs
      | none => pure []
    pure (["### " ++ m.name, ""] ++ sigLines ++ (← classMethodBlocks rest))

/-- `VitePressRenderer.renderClass`. -/
def renderClass (r : Reflection) : Except String (List String) := do
  let children := r.children.getD []
  let ctorBlock ← match children.find? (fun c => c.kind == ReflectionKind.Constructor) with
    | some ctor => do
      pure (["## Constructor", "", "```typescript",
        "new " ++ r.name ++ "(" ++ (← renderParameters ctor) ++ ")", "```", ""])
    | none => pure ([] : List String)
  let properties := children.filter (fun c => c.kind == ReflectionKind.Property)
  let propBlock ← match properties with
    | [] => pure ([] : List String)
    | ps => do
      pure (["## Properties", "", "| Name | Type | Description |", "|------|------|-------------|"] ++
        (← classPropertyRows ps) ++ [""])
  let methods := children.filter (fun c => c.kind == ReflectionKind.Method)
  let methodBlock ← match methods with
    | [] => pure ([] : List String)
    | ms => do pure (["## 方法", ""] ++ (← classMethodBlocks ms))
  addExample r (ctorBlock ++ propBlock ++ methodBlock)

/-- The property-table rows of `renderInterface`. -/
def interfaceRows : List Reflection → Except String (List String)
  | [] => pure []
  | child :: rest => do
    let ty ← renderType child.type
    let description ← summaryText child.comment
    pure (("| " ++ child.name ++ " | `" ++ ty ++ "` | " ++ description ++ " |") ::
      (← interfaceRows rest))

/-- `VitePressRenderer.renderInterface`. -/
def renderInterface (r : Reflection) : Except String (List String) := do
  let tableBlock ← match r.children with
    | some cs => do
      pure (["| Property | 类型 | 描述 |", "|----------|------|-------------|"] ++
        (← interfaceRows cs) ++ [""])
    | none => pure ([] : List String)
  pure (["## 属性", ""] ++ tableBlock)

/-- `VitePressRenderer.renderTypeAlias`. -/
def renderTypeAlias (r : Reflection) (lines : List String) : Except String (List String) := do
  let quoted ← match ((r.comment.bind (·.blockTags)).getD []).find?
      (fun t => t.tag == "@description") with
    | some t =>
      match t.content with
      | [] => .error undefinedIndexError
      | c :: _ => pure c.text
    | none => pure ""
  pure (lines ++ ["## 类型别名", "", "> " ++ quoted])

/-- `VitePressRenderer.renderFunction` (appends to `lines`). -/
def renderFunction (r : Reflection) (lines : List String) (options : VitePressOptions) :
    Except String (List String) := do
  let l1 := lines ++ [FrontMatterGenerator.generate r options, "# " ++ r.name, ""]
  let module ← CommentParser.getModule r none
  let moduleTag := CommentParser.getModuleTag r
  let category := CommentParser.getCategory r
  let l2 := l1 ++ (if truthyOpt module then ["**模块**: `" ++ module.getD "" ++ "`", ""] else [])
  let l3 := l2 ++
    (if truthyOpt moduleTag then ["**模块标签**: `" ++ moduleTag.getD "" ++ "`", ""] else [])
  let l4 := l3 ++
    (if truthyOpt category then ["**分类**: `" ++ category.getD "" ++ "`", ""] else [])
  let l5 := l4 ++ [renderKindBadge r.kind, ""]
  let fullDescription := CommentParser.getFullDescription r
  let l6 := l5 ++ (if fullDescription ≠ "" then ["## 概述", "", fullDescription, ""] else [])
  if r.kind == ReflectionKind.Variable && isFunctionType r then do
    pure (l6 ++ (← renderFunctionVariable r))
  else
    match r.kind with
    | .Class => do pure (l6 ++ (← renderClass r))
    | .Interface => do pure (l6 ++ (← renderInterface r))
    | .Function => do pure (l6 ++ (← renderFunctionVariable r))
    | _ => pure l6

/-- `VitePressRenderer.generateMarkdownContent` (whole-document string;
the kind switch here handles only `Class` and `Interface`). -/
def generateMarkdownContent (r : Reflection) (options : VitePressOptions) :
    Except String String := do
  let l1 := [FrontMatterGenerator.generate r options, "# " ++ r.name, ""]
  let module ← CommentParser.getModule r none
  let moduleTag := CommentParser.getModuleTag r
  let category := CommentParser.getCategory r
  let l2 := l1 ++ (if truthyOpt module then ["**模块**: `" ++ module.getD "" ++ "`", ""] else [])
  let l3 := l2 ++
    (if truthyOpt moduleTag then ["**模块标签**: `" ++ moduleTag.getD "" ++ "`", ""] else [])
  let l4 := l3 ++
    (if truthyOpt category then ["**分类**: `" ++ category.getD "" ++ "`", ""] else [])
  let l5 := l4 ++ [renderKindBadge r.kind, ""]
  let fullDescription := CommentParser.getFullDescription r
  let l6 := l5 ++ (if fullDescription ≠ "" then ["## 概述", "", fullDescription, ""] else [])
  let l7 ← if r.kind == ReflectionKind.Variable && isFunctionType r then do
      pure (l6 ++ (← renderFunctionVariable r))
    else
      match r.kind with
      | .Class => do pure (l6 ++ (← renderClass r))
      | .Interface => do pure (l6 ++ (← renderInterface r))
      | _ => pure l6
  pure (String.intercalate "\n" l7)

/-! ## A stable sort modelling JS `Array.prototype.sort`

JS `sort` is stable; `jsSort lt` inserts each element after every
already-placed element it is not strictly before.  `lt a b` models
`comparator(a, b) < 0`.  `localeCompare` ordering is modelled as the
code-point order (adequate here: no claim depends on collation). -/

def insertAfterEq {α : Type} (lt : α → α → Bool) (x : α) : List α → List α
  | [] => [x]
  | y :: ys => if lt x y then x :: y :: ys else y :: insertAfterEq lt x ys

def jsSort {α : Type} (lt : α → α → Bool) (l : List α) : List α :=
  l.foldl (fun acc x => insertAfterEq lt x acc) []

/-! ## JSON (model of `JSON.stringify(value, null, 2)`) -/

/-- The JSON values the sidebar serializes. -/
inductive Json where
  | str (s : String)
  | bool (b : Bool)
  | arr (items : List Json)
  | obj (fields : List (String × Json))

/-- JSON string escaping. -/
def jsonEscapeChar (c : Char) : List Char :=
  if c = '"' then ['\\', '"']
  else if c = '\\' then ['\\', '\\']
  else if c = '\n' then ['\\', 'n']
  else if c = '\t' then ['\\', 't']
  else if c = '\r' then ['\\', 'r']
  else if c.toNat < 32 then
    ['\\', 'u', '0', '0', Nat.digitChar (c.toNat / 16 % 16), Nat.digitChar (c.toNat % 16)]
  else [c]

def jsonEscape (s : String) : String := String.mk (s.data.flatMap jsonEscapeChar)

def jsonSpaces (n : Nat) : String := String.mk (List.replicate n ' ')

mutual
/-- `JSON.stringify(v, null, 2)` at indentation level `ind`. -/
def jsonStringify (ind : Nat) : Json → String
  | .str s => "\"" ++ jsonEscape s ++ "\""
  | .bool b => if b then "true" else "false"
  | .arr [] => "[]"
  | .arr (j :: js) =>
    "[\n" ++ String.intercalate ",\n" (jsonStringifyList (ind + 2) (j :: js)) ++
      "\n" ++ jsonSpaces ind ++ "]"
  | .obj [] => "\x7b\x7d"
  | .obj (f :: fs) =>
    "\x7b\n" ++ String.intercalate ",\n" (jsonStringifyFields (ind + 2) (f :: fs)) ++
      "\n" ++ jsonSpaces ind ++ "\x7d"

def jsonStringifyList (ind : Nat) : List Json → List String
  | [] => []
  | j :: rest => (jsonSpaces ind ++ jsonStringify ind j) :: jsonStringifyList ind rest

def jsonStringifyFields (ind : Nat) : List (String × Json) → List String
  | [] => []
  | (k, v) :: rest =>
    (jsonSpaces ind ++ "\"" ++ jsonEscape k ++ "\": " ++ jsonStringify ind v) ::
      jsonStringifyFields ind rest
end

/-! ## `SidebarGenerator` (from `src/SidebarGenerator.ts`, the
category/subgroup variant) -/

/-- One sidebar leaf item. -/
structure SidebarItem where
  name : String
  description : String
  link : String
  kind : String
  moduleTag : String

/-- A module subgroup nested inside a category. -/
structure SidebarSubgroup where
  name : String
  items : List SidebarItem

/-- A sidebar category (`ModuleInfo`). -/
structure SidebarCategory where
  name : String
  description : String
  items : List SidebarItem
  subgroups : List (String × SidebarSubgroup)

namespace SidebarGenerator

/-- The `kindMap` record. -/
def kindMap : String → Option String
  | "browser" => some "浏览器"
  | "util" => some "工具"
  | "common" => some "通用"
  | _ => none

/-- `SidebarGenerator.getModuleDescription`. -/
def getModuleDescription (moduleName : String) : String :=
  match moduleName with
  | "browser/http" => "浏览器 HTTP 请求工具"
  | "browser" => "浏览器相关工具"
  | "common" => "通用工具函数"
  | "utils" => "工具函数集合"
  | _ => moduleName ++ " 模块"

/-- `SidebarGenerator.shouldIncludeInSidebar`. -/
def shouldIncludeInSidebar (r : Reflection) : Bool :=
  if r.kind == ReflectionKind.Interface || r.kind == ReflectionKind.TypeAlias then
    match r.comment.bind (·.blockTags) with
    | some tags => tags.any (fun t => t.tag == "@example")
    | none => false
  else true

/-- `SidebarGenerator.getLink`. -/
def getLink (r : Reflection) (options : VitePressOptions) : String :=
  "/docs/" ++ String.mk ((jsToLower r.name).data.map (fun c => if isLowerDigit c then c else '-'))

/-- Record lookup on the category map. -/
def catFind (cats : List (String × SidebarCategory)) (k : String) : Option SidebarCategory :=
  (cats.find? (·.1 == k)).map (·.2)

/-- In-place update of one category. -/
def catUpdate (cats : List (String × SidebarCategory)) (k : String)
    (f : SidebarCategory → SidebarCategory) : List (String × SidebarCategory) :=
  cats.map (fun e => if e.1 == k then (e.1, f e.2) else e)

/-- One iteration of the grouping loop of `SidebarGenerator.generate`. -/
def sidebarStep (options : VitePressOptions) (cats : List (String × SidebarCategory))
    (r : Reflection) : Except String (List (String × SidebarCategory)) := do
  let m ← CommentParser.getModule r none
  let moduleName := match m with
    | some s =>
      let h := ((jsSplitSlash s).headD "")
      if h ≠ "" then h else "Global"
    | none => "Global"
  let category := match CommentParser.getCategory r with
    | some s => if s ≠ "" then s else moduleName
    | none => moduleName
  let moduleTag := match CommentParser.getModuleTag r with
    | some s => if s ≠ "" then s else moduleName
    | none => moduleName
  let d ← CommentParser.getModule r (some "@func")
  let itemDescription := match d with
    | some s => if s ≠ "" then s else r.name
    | none => r.name
  let groupKey := if category ≠ "" then category else moduleName
  let cats := match catFind cats groupKey with
    | some _ => cats
    | none => cats ++
      [(groupKey, ⟨(kindMap groupKey).getD groupKey, getModuleDescription groupKey, [], []⟩)]
  if shouldIncludeInSidebar r then
    let item : SidebarItem := ⟨r.name, itemDescription, getLink r options, r.kind.nameStr, moduleTag⟩
    if moduleTag ≠ groupKey then
      let cats := catUpdate cats groupKey (fun cat =>
        match cat.subgroups.find? (·.1 == moduleTag) with
        | some _ => cat
        | none =>
          { cat with subgroups :=
              cat.subgroups ++ [(moduleTag, ⟨(kindMap moduleTag).getD moduleTag, []⟩)] })
      pure (catUpdate cats groupKey (fun cat =>
        { cat with subgroups := cat.subgroups.map (fun e =>
            if e.1 == moduleTag then (e.1, { e.2 with items := e.2.items ++ [item] }) else e) }))
    else
      pure (catUpdate cats groupKey (fun cat => { cat with items := cat.items ++ [item] }))
  else
    pure cats

/-- A leaf item as serialized: `text` is `description || name`. -/
def itemJson (item : SidebarItem) : Json :=
  .obj [("text", .str (if item.description ≠ "" then item.description else item.name)),
        ("link", .str item.link)]

/-- `SidebarGenerator.convertToVitePressSidebar`. -/
def convertToVitePressSidebar (cats : List (String × SidebarCategory))
    (options : VitePressOptions) : Json :=
  let sortedNames := jsSort (fun a b => decide (a < b)) (cats.map (·.1))
  .arr (sortedNames.filterMap (fun nm => (catFind cats nm).map (fun cat =>
    let directItems := (jsSort (fun a b => decide (a.name < b.name)) cat.items).map itemJson
    let sortedSubNames := jsSort (fun a b => decide (a < b)) (cat.subgroups.map (·.1))
    let subItems := sortedSubNames.filterMap (fun snm =>
      ((cat.subgroups.find? (·.1 == snm)).map (·.2)).map (fun sub =>
        Json.obj [("text", .str sub.name), ("collapsible", .bool true),
          ("collapsed", .bool true),
          ("items", .arr ((jsSort (fun a b => decide (a.name < b.name)) sub.items).map
            itemJson))]))
    Json.obj [("text", .str cat.name), ("collapsible", .bool true), ("collapsed", .bool false),
      ("items", .arr (directItems ++ subItems))])))

/-- `SidebarGenerator.generate`. -/
def generate (project : ProjectReflection) (options : VitePressOptions) :
    Except String Json := do
  let cats ← (project.children.getD []).foldlM (sidebarStep options) []
  pure (convertToVitePressSidebar cats options)

end SidebarGenerator

/-! ## The filesystem model and the renderer run monad

The `fs` promises API is modelled as a state of full-path ↦ content
bindings with write/unlink counters, fault-injection lists (a path in
`failWrites` / `failUnlinks` makes the corresponding promise reject;
`failReaddir` makes the directory listing reject) and the `console.error`
log.  When a JS error propagates out of `renderProject` the run's state
is unobservable to the caller, so the error branch of the monad carries
only the message.  `path.join` is modelled as `/`-concatenation (the
arguments here are a directory and a plain filename, so no normalization
is needed); `path.join(outputDir, "..")` is modelled by dropping the last
path segment. -/

structure FsState where
  files : List (String × String)
  writeCount : Nat
  unlinkCount : Nat
  failWrites : List String
  failUnlinks : List String
  failReaddir : Bool
  log : List String

structure RunState where
  fs : FsState
  processedFiles : List String

/-- The renderer's run monad: state plus thrown JS errors. -/
abbrev RenderM (α : Type) := StateT RunState (Except String) α

theorem renderM_run_bind {α β : Type} (m : RenderM α) (f : α → RenderM β) (st : RunState) :
    (m >>= f) st =
      match m st with
      | .error e => .error e
      | .ok (a, s') => f a s' := by
  cases h : m st with
  | error e => simp [Bind.bind, StateT.bind, h, Except.bind]
  | ok p => simp [Bind.bind, StateT.bind, h, Except.bind]

/-- `path.join(dir, name)` for a directory and a plain filename. -/
def pathJoin (dir nm : String) : String := dir ++ "/" ++ nm

/-- `path.join(p, "..")`: drop the last path segment. -/
def parentDir (p : String) : String :=
  String.intercalate "/" ((splitOnSlash p.data).map String.mk).dropLast

/-- Lookup of a file's content. -/
def fsLookup (files : List (String × String)) (p : String) : Option String :=
  (files.find? (·.1 == p)).map (·.2)

/-- `writeFile` content update (an overwrite moves the entry to the end;
only the relative order of live entries matters, it determines the
readdir listing order). -/
def fsInsert (files : List (String × String)) (p c : String) : List (String × String) :=
  (files.filter (·.1 != p)) ++ [(p, c)]

/-- The names directly inside `dir`, as `readdir` returns them. -/
def basenameIn (dir p : String) : Option String :=
  let pre := dir ++ "/"
  if p.take pre.length = pre then
    let rest := p.drop pre.length
    if rest.data.contains '/' || rest = "" then none else some rest
  else none

def readdirNames (dir : String) (fs : FsState) : List String :=
  fs.files.filterMap (fun e => basenameIn dir e.1)

/-- `fsPromises.writeFile`: rejects when the path is fault-injected. -/
def writeFile (p c : String) : RenderM Unit := fun st =>
  if st.fs.failWrites.contains p then .error ("Error: EACCES write " ++ p)
  else .ok ((), { st with fs := { st.fs with
    files := fsInsert st.fs.files p c, writeCount := st.fs.writeCount + 1 } })

/-- `fsPromises.unlink` on the raw state: rejects when fault-injected. -/
def unlinkRaw (p : String) (fs : FsState) : Except String FsState :=
  if fs.failUnlinks.contains p then .error ("Error: EACCES unlink " ++ p)
  else .ok { fs with files := fs.files.filter (·.1 != p), unlinkCount := fs.unlinkCount + 1 }

/-! ## `VitePressRenderer` (from `src/types/index.ts`, lines 41–830) -/

/-- The recognized typedoc option values (`Options.getValue` results). -/
structure TypedocOptions where
  vitepressOutput : Option String
  vitepressBaseUrl : Option String
  vitepressTitle : Option String
  vitepressDescription : Option String
  vitepressIncremental : Option Bool

/-- JS `x || default` over an optional string (empty string is falsy). -/
def jsOrDefault (v : Option String) (d : String) : String :=
  match v with
  | some s => if s ≠ "" then s else d
  | none => d

/-- The constructed renderer instance: `outputDir`, `incremental` and
`options` as the constructor derives them. -/
structure RendererConfig where
  outputDir : String
  incremental : Bool
  options : VitePressOptions

namespace VitePressRenderer

/-- The `VitePressRenderer` constructor. -/
def create (o : TypedocOptions) : RendererConfig :=
  let outputDir := jsOrDefault o.vitepressOutput "./docs/.vitepress/api"
  { outputDir := outputDir
    incremental := (o.vitepressIncremental.getD false) || false
    options :=
      { outputDir := outputDir
        baseUrl := jsOrDefault o.vitepressBaseUrl "/"
        title := jsOrDefault o.vitepressTitle "API Documentation"
        description := jsOrDefault o.vitepressDescription "Auto-generated API documentation" } }

/-- `clearOutputDir`: recursively remove everything under `outputDir`,
then recreate it (directory creation itself is not represented). -/
def clearOutputDir (cfg : RendererConfig) : RenderM Unit := fun st =>
  .ok ((), { st with fs := { st.fs with
    files := st.fs.files.filter (fun e =>
      decide (¬ (e.1.take (cfg.outputDir ++ "/").length = cfg.outputDir ++ "/"))) } })

/-- `getFilename`. -/
def getFilename (r : Reflection) : String := SlugGenerator.generateSlug r.name ++ ".md"

/-- `shouldSkipFile`: read the existing file and compare; a read failure
(absent file) means "do not skip". -/
def shouldSkipFile (filepath content : String) : RenderM Bool := fun st =>
  .ok ((match fsLookup st.fs.files filepath with
    | some existing => existing == content
    | none => false), st)

/-- `renderReflection` (the per-node path): records the filename into
`processedFiles` *before* the incremental skip check and the write. -/
def renderReflection (cfg : RendererConfig) (r : Reflection) : RenderM Unit := do
  let content ← liftM (generateMarkdownContent r cfg.options)
  let filename := getFilename r
  let filepath := pathJoin cfg.outputDir filename
  modify (fun st =>
    if st.processedFiles.contains filename then st
    else { st with processedFiles := st.processedFiles ++ [filename] })
  if cfg.incremental then
    let skip ← shouldSkipFile filepath content
    if skip then pure () else writeFile filepath content
  else writeFile filepath content

/-- The per-item dispatch of the group renderer `renderReflections`. -/
def renderGroupItem (options : VitePressOptions) (lines : List String) (item : Reflection) :
    Except String (List String) := do
  let l1 ← if item.kind == ReflectionKind.Function then renderFunction item lines options
    else pure lines
  let l2 ← if item.kind == ReflectionKind.Class then do
      pure (l1 ++ [← generateMarkdownContent item options])
    else pure l1
  let l3 ← if item.kind == ReflectionKind.TypeAlias then renderTypeAlias item l2
    else pure l2
  let l4 ← if item.kind == ReflectionKind.Interface then do
      pure ((l3 ++ ["## " ++ item.name ++ " 接口"]) ++ (← renderInterface item))
    else pure l3
  pure l4

/-- `renderReflections` (the per-group path actually used by
`renderProject`): sort the group by kind, assemble one document, write it
to the filename derived from the first sorted node.  Nothing is recorded
into `processedFiles`. -/
def renderReflections (cfg : RendererConfig) (group : List Reflection) : RenderM Unit := do
  let sorted := jsSort (fun a b => decide (a.kind.value < b.kind.value)) group
  let lines ← liftM (sorted.foldlM (renderGroupItem cfg.options) ([] : List String))
  match sorted with
  | [] => fun _ => .error undefinedIndexError
  | r0 :: _ => writeFile (pathJoin cfg.outputDir (getFilename r0)) (String.intercalate "\n" lines)

/-- The grouping key of `renderProject`:
`this.getModule(reflection)?.split("/")[1]` — the *second* segment of the
module path, `undefined` when the module is absent or has no second
segment. -/
def moduleKeyOf (r : Reflection) : Except String (Option String) := do
  let m ← CommentParser.getModule r none
  pure (match m with
    | some s => (jsSplitSlash s).get? 1
    | none => none)

/-- Insertion into the JS `Map` of groups (insertion order preserved). -/
def mapInsert (acc : List (Option String × List Reflection)) (key : Option String)
    (r : Reflection) : List (Option String × List Reflection) :=
  match acc with
  | [] => [(key, [r])]
  | (k, g) :: rest =>
    if k == key then (k, g ++ [r]) :: rest else (k, g) :: mapInsert rest key r

/-- The grouping loop of `renderProject`. -/
def groupChildren (children : List Reflection) :
    Except String (List (Option String × List Reflection)) :=
  children.foldlM (fun acc r => do
    let key ← moduleKeyOf r
    pure (mapInsert acc key r)) []

/-- The per-module sections of the index document. -/
def indexModuleSections (modules : List (String × List Reflection)) : List String :=
  (jsSort (fun a b => decide (a < b)) (modules.map (·.1))).flatMap (fun moduleName =>
    match (modules.find? (·.1 == moduleName)).map (·.2) with
    | some moduleReflections =>
      ["## " ++ moduleName, ""] ++
        ((jsSort (fun a b => decide (a.name < b.name)) moduleReflections).map (fun r =>
          let displayText := match CommentParser.getFunctionDescription r with
            | some s => if s ≠ "" then s else r.name
            | none => r.name
          let link := SlugGenerator.generateSlug r.name
          "- [" ++ displayText ++ "](" ++ link ++ ")")) ++ [""]
    | none => [])

/-- The module map of `generateIndex` (a `Record` keyed by
`getModule(r) || "Global"`, insertion order). -/
def indexModules (children : List Reflection) :
    Except String (List (String × List Reflection)) :=
  children.foldlM (fun acc r => do
    let m ← CommentParser.getModule r none
    let key := match m with
      | some s => if s ≠ "" then s else "Global"
      | none => "Global"
    pure (match acc.find? (·.1 == key) with
      | some _ => acc.map (fun e => if e.1 == key then (e.1, e.2 ++ [r]) else e)
      | none => acc ++ [(key, [r])])) []

/-- `generateIndex`: always regenerated in full. -/
def generateIndex (cfg : RendererConfig) (project : ProjectReflection) : RenderM Unit := do
  let header := ["---", "title: API 参考", "description: 完整的 API 文档", "---", "",
    "# API 参考", "", "欢迎使用 API 文档。此参考包含所有导出成员的详细信息。", ""]
  let body ← match project.children with
    | some children => do
      let modules ← liftM (indexModules children)
      pure (indexModuleSections modules)
    | none => pure ([] : List String)
  writeFile (pathJoin cfg.outputDir "index.md") (String.intercalate "\n" (header ++ body))

/-- The sidebar config path
`path.join(outputDir, "..", ".vitepress", "sidebar.json")`. -/
def sidebarConfigPath (outputDir : String) : String :=
  parentDir outputDir ++ "/.vitepress/sidebar.json"

/-- `generateSidebarConfig`: always regenerated in full. -/
def generateSidebarConfig (cfg : RendererConfig) (project : ProjectReflection) :
    RenderM Unit := do
  let sidebar ← liftM (SidebarGenerator.generate project cfg.options)
  writeFile (sidebarConfigPath cfg.outputDir) (jsonStringify 0 sidebar)

/-- The unlink loop of `cleanupUnusedFiles`; the surrounding `try` means
the first rejection stops the loop, keeps the deletions already made, and
appends one log entry. -/
def cleanupLoop (cfg : RendererConfig) (processed : List String) (names : List String)
    (fs : FsState) : FsState :=
  match names with
  | [] => fs
  | nm :: rest =>
    if processed.contains nm then cleanupLoop cfg processed rest fs
    else
      match unlinkRaw (pathJoin cfg.outputDir nm) fs with
      | .ok fs' => cleanupLoop cfg processed rest fs'
      | .error e => { fs with log := fs.log ++ ["Failed to cleanup unused files: " ++ e] }

/-- The whole `cleanupUnusedFiles` body as a state transformation: it
never propagates an error. -/
def cleanupRun (cfg : RendererConfig) (st : RunState) : RunState :=
  if st.fs.failReaddir then
    { st with fs := { st.fs with
      log := st.fs.log ++ ["Failed to cleanup unused files: Error: EIO readdir"] } }
  else
    let files := readdirNames cfg.outputDir st.fs
    let markdownFiles := files.filter (fun f => strEndsWith f ".md" && f != "index.md")
    { st with fs := cleanupLoop cfg st.processedFiles markdownFiles st.fs }

/-- `cleanupUnusedFiles` in the run monad (total by construction: the
`catch` swallows every failure). -/
def cleanupUnusedFiles (cfg : RendererConfig) : RenderM Unit := fun st =>
  .ok ((), cleanupRun cfg st)

/-- Everything `renderProject` does before the prune stage: directory
preparation, the grouped content writes, the index and the sidebar. -/
def renderMain (cfg : RendererConfig) (project : ProjectReflection) : RenderM Unit := do
  if !cfg.incremental then clearOutputDir cfg else pure ()
  match project.children with
  | some children => do
    let groups ← liftM (groupChildren children)
    groups.forM (fun kv => renderReflections cfg kv.2)
  | none => pure ()
  generateIndex cfg project
  generateSidebarConfig cfg project

/-- `renderProject`: the main phase, then — in incremental mode — the
prune stage. -/
def renderProject (cfg : RendererConfig) (project : ProjectReflection) : RenderM Unit := do
  renderMain cfg project
  if cfg.incremental then cleanupUnusedFiles cfg else pure ()

end VitePressRenderer

/-! ## Concrete incremental-mode runs (claims C1, C2, C9) -/

/-- Typedoc options enabling incremental mode. -/
def incOptions : TypedocOptions :=
  ⟨some "./docs/api", some "/", some "API Documentation",
    some "Generated API documentation", some true⟩

/-- The incremental renderer instance. -/
def incCfg : RendererConfig := VitePressRenderer.create incOptions

/-- A project with a single type-alias export. -/
def exampleProject : ProjectReflection :=
  ⟨some [.mk "t" .TypeAlias none none none none]⟩

/-- An empty, fault-free filesystem. -/
def initialRun : RunState := ⟨⟨[], 0, 0, [], [], false, []⟩, []⟩

/-- The state after the main phase (content, index, sidebar) of the first
incremental run. -/
def afterMain : RunState :=
  match VitePressRenderer.renderMain incCfg exampleProject initialRun with
  | .ok (_, s) => s
  | .error _ => initialRun

/-- The state after the first full incremental run. -/
def afterFirstRun : RunState :=
  match VitePressRenderer.renderProject incCfg exampleProject initialRun with
  | .ok (_, s) => s
  | .error _ => initialRun

/-- The state after the second full incremental run on unchanged input. -/
def afterSecondRun : RunState :=
  match VitePressRenderer.renderProject incCfg exampleProject afterFirstRun with
  | .ok (_, s) => s
  | .error _ => afterFirstRun

/-- C1 (code bug): incremental rendering is *not* idempotent — on the
unchanged one-node project the second incremental run performs three file
writes (the content-equality short-circuit never fires, because
`renderProject` renders through `renderReflections`, which neither
consults `shouldSkipFile` nor records into `processedFiles`) and the
prune stage deletes the group file again (one deletion per run). -/
theorem incremental_second_run_writes_and_deletes :
    VitePressRenderer.renderProject incCfg exampleProject initialRun =
        .ok ((), afterFirstRun) ∧
      VitePressRenderer.renderProject incCfg exampleProject afterFirstRun =
        .ok ((), afterSecondRun) ∧
      afterSecondRun.fs.writeCount = afterFirstRun.fs.writeCount + 3 ∧
      afterSecondRun.fs.unlinkCount = afterFirstRun.fs.unlinkCount + 1 :=
  ⟨rfl, rfl, by decide, by decide⟩

/-- C2 (code bug): the group renderer does not record the group's output
filename into `processedFiles` before (or after) the write — after the
main phase the group file `t.md` exists on disk while `processedFiles` is
still empty, and the prune stage of the *same* run therefore deletes the
file that was just written. -/
theorem group_filename_never_recorded_before_write :
    VitePressRenderer.renderMain incCfg exampleProject initialRun = .ok ((), afterMain) ∧
      fsLookup afterMain.fs.files (pathJoin "./docs/api" "t.md") ≠ none ∧
      afterMain.processedFiles = [] ∧
      fsLookup afterFirstRun.fs.files (pathJoin "./docs/api" "t.md") = none ∧
      afterFirstRun.fs.unlinkCount = 1 :=
  ⟨rfl, by decide, by decide, by decide, by decide⟩

/-- The prune stage itself can never abort the run. -/
theorem cleanupUnusedFiles_total (cfg : RendererConfig) (st : RunState) :
    VitePressRenderer.cleanupUnusedFiles cfg st =
      .ok ((), VitePressRenderer.cleanupRun cfg st) := rfl

/-- C9: a failure while listing or deleting stale files during the
incremental prune stage never propagates — whenever the main phase (all
content, index and sidebar writes) succeeded, the whole `renderProject`
run succeeds, whatever unlink/readdir faults are injected. -/
theorem pruning_failure_isolated (cfg : RendererConfig) (project : ProjectReflection)
    (st s₁ : RunState)
    (h : VitePressRenderer.renderMain cfg project st = .ok ((), s₁)) :
    ∃ s₂, VitePressRenderer.renderProject cfg project st = .ok ((), s₂) := by
  unfold VitePressRenderer.renderProject
  rw [renderM_run_bind, h]
  by_cases hinc : incCfg.incremental = true
  all_goals by_cases hinc' : cfg.incremental = true
  all_goals simp only [hinc', if_true, if_false, Bool.false_eq_true]
  all_goals first
    | exact ⟨VitePressRenderer.cleanupRun cfg s₁, rfl⟩
    | exact ⟨s₁, rfl⟩

/-- A run with an unlink fault injected on the group file's path. -/
def faultRun : RunState :=
  ⟨⟨[], 0, 0, [], [pathJoin "./docs/api" "t.md"], false, []⟩, []⟩

/-- The state after the main phase of the fault-injected run. -/
def faultMain : RunState :=
  match VitePressRenderer.renderMain incCfg exampleProject faultRun with
  | .ok (_, s) => s
  | .error _ => faultRun

/-- Witness for C9: with a deletion fault injected on the prune stage's
target, the main phase succeeds and the whole run still resolves
successfully (and the model's prune stage logs the failure). -/
theorem pruning_failure_isolated_witness :
    VitePressRenderer.renderMain incCfg exampleProject faultRun = .ok ((), faultMain) ∧
      ∃ s₂, VitePressRenderer.renderProject incCfg exampleProject faultRun = .ok ((), s₂) :=
  ⟨rfl, pruning_failure_isolated incCfg exampleProject faultRun faultMain rfl⟩

/-! ## Claim C4: the `renderProject` grouping key -/

/-- A node with module path `a/b`. -/
def secondSegmentNode : Reflection :=
  .mk "f" .Function
    (some ⟨none, none, some [⟨"@memberof", [⟨"module:a/b"⟩], ""⟩], none, none, none⟩)
    none none none

/-- C4 counterexample: the grouping key of `renderProject` is not the
first path segment of `getModule` — for a node with module `a/b` the key
is `"b"` (the code takes `split("/")[1]`, the second segment), while the
first segment is `"a"`. -/
theorem grouping_key_counterexample :
    CommentParser.getModule secondSegmentNode none = .ok (some "a/b") ∧
      VitePressRenderer.moduleKeyOf secondSegmentNode = .ok (some "b") ∧
      (jsSplitSlash "a/b").head? = some "a" ∧
      (some "b" : Option String) ≠ some "a" :=
  ⟨rfl, rfl, rfl, by decide⟩

theorem mapInsert_sound {acc : List (Option String × List Reflection)} {key : Option String}
    {x : Reflection}
    (hacc : ∀ k g, (k, g) ∈ acc → ∀ r ∈ g, VitePressRenderer.moduleKeyOf r = .ok k)
    (hx : VitePressRenderer.moduleKeyOf x = .ok key) :
    ∀ k g, (k, g) ∈ VitePressRenderer.mapInsert acc key x →
      ∀ r ∈ g, VitePressRenderer.moduleKeyOf r = .ok k := by
  induction acc with
  | nil =>
    intro k g hm r hr
    simp only [VitePressRenderer.mapInsert, List.mem_singleton, Prod.mk.injEq] at hm
    obtain ⟨rfl, rfl⟩ := hm
    simp only [List.mem_singleton] at hr
    subst hr
    exact hx
  | cons e rest ih =>
    intro k g hm r hr
    obtain ⟨k₀, g₀⟩ := e
    simp only [VitePressRenderer.mapInsert] at hm
    by_cases hk : (k₀ == key) = true
    · rw [if_pos hk] at hm
      rcases List.mem_cons.mp hm with hm | hm
      · obtain ⟨rfl, rfl⟩ := Prod.mk.injEq .. |>.mp hm
        rcases List.mem_append.mp hr with hr | hr
        · exact hacc k g₀ (by simp) r hr
        · simp only [List.mem_singleton] at hr
          subst hr
          rw [hx]
          simp only [beq_iff_eq] at hk
          rw [hk]
      · exact hacc k g (List.mem_cons.mpr (Or.inr hm)) r hr
    · rw [if_neg hk] at hm
      rcases List.mem_cons.mp hm with hm | hm
      · obtain ⟨rfl, rfl⟩ := Prod.mk.injEq .. |>.mp hm
        exact hacc k g (by simp) r hr
      · exact ih (fun k' g' hm' r' hr' => hacc k' g' (List.mem_cons.mpr (Or.inr hm')) r' hr')
          k g hm r hr

theorem mapInsert_keys (acc : List (Option String × List Reflection)) (key : Option String)
    (x : Reflection) :
    (VitePressRenderer.mapInsert acc key x).map (·.1) =
      (if key ∈ acc.map (·.1) then acc.map (·.1) else acc.map (·.1) ++ [key]) := by
  induction acc with
  | nil => simp [VitePressRenderer.mapInsert]
  | cons e rest ih =>
    obtain ⟨k₀, g₀⟩ := e
    simp only [VitePressRenderer.mapInsert]
    by_cases hk : (k₀ == key) = true
    · simp only [beq_iff_eq] at hk
      subst hk
      simp
    · have hne : k₀ ≠ key := by simpa [beq_iff_eq] using hk
      rw [if_neg hk]
      simp only [List.map_cons, ih]
      by_cases hmem : key ∈ rest.map (·.1)
      · rw [if_pos hmem, if_pos (by simp [hmem])]
      · rw [if_neg hmem]
        have hnot : ¬ key ∈ k₀ :: List.map (fun x => x.1) rest := by
          simp only [List.mem_cons]
          rintro (h | h)
          · exact hne h.symm
          · exact hmem h
        rw [if_neg hnot]
        simp

theorem mapInsert_nodup {acc : List (Option String × List Reflection)} {key : Option String}
    {x : Reflection} (h : (acc.map (·.1)).Nodup) :
    ((VitePressRenderer.mapInsert acc key x).map (·.1)).Nodup := by
  rw [mapInsert_keys]
  by_cases hmem : key ∈ acc.map (·.1)
  · rwa [if_pos hmem]
  · rw [if_neg hmem, List.nodup_append]
    refine ⟨h, List.nodup_singleton _, ?_⟩
    intro a ha hb
    simp only [List.mem_singleton] at hb
    subst hb
    exact hmem ha

theorem mapInsert_preserves {acc : List (Option String × List Reflection)}
    {key : Option String} {x : Reflection} {k : Option String} {g : List Reflection}
    (h : (k, g) ∈ acc) :
    ∃ g', (k, g') ∈ VitePressRenderer.mapInsert acc key x ∧ ∀ r ∈ g, r ∈ g' := by
  induction acc with
  | nil => simp at h
  | cons e rest ih =>
    obtain ⟨k₀, g₀⟩ := e
    simp only [VitePressRenderer.mapInsert]
    by_cases hk : (k₀ == key) = true
    · rw [if_pos hk]
      rcases List.mem_cons.mp h with h | h
      · obtain ⟨rfl, rfl⟩ := Prod.mk.injEq .. |>.mp h
        exact ⟨g ++ [x], by simp, fun r hr => List.mem_append.mpr (Or.inl hr)⟩
      · exact ⟨g, List.mem_cons.mpr (Or.inr h), fun r hr => hr⟩
    · rw [if_neg hk]
      rcases List.mem_cons.mp h with h | h
      · obtain ⟨rfl, rfl⟩ := Prod.mk.injEq .. |>.mp h
        exact ⟨g, by simp, fun r hr => hr⟩
      · obtain ⟨g', hg', hsub⟩ := ih h
        exact ⟨g', List.mem_cons.mpr (Or.inr hg'), hsub⟩

theorem mapInsert_adds (acc : List (Option String × List Reflection)) (key : Option String)
    (x : Reflection) :
    ∃ g', (key, g') ∈ VitePressRenderer.mapInsert acc key x ∧ x ∈ g' := by
  induction acc with
  | nil => exact ⟨[x], by simp [VitePressRenderer.mapInsert], by simp⟩
  | cons e rest ih =>
    obtain ⟨k₀, g₀⟩ := e
    simp only [VitePressRenderer.mapInsert]
    by_cases hk : (k₀ == key) = true
    · rw [if_pos hk]
      simp only [beq_iff_eq] at hk
      subst hk
      exact ⟨g₀ ++ [x], by simp, by simp⟩
    · rw [if_neg hk]
      obtain ⟨g', hg', hx⟩ := ih
      exact ⟨g', List.mem_cons.mpr (Or.inr hg'), hx⟩

theorem groupChildren_go (children : List Reflection) :
    ∀ acc groups : List (Option String × List Reflection),
      (children.foldlM (fun acc r => do
        let key ← VitePressRenderer.moduleKeyOf r
        pure (VitePressRenderer.mapInsert acc key r)) acc) = .ok groups →
      (∀ k g, (k, g) ∈ acc → ∀ r ∈ g, VitePressRenderer.moduleKeyOf r = .ok k) →
      (acc.map (·.1)).Nodup →
      (∀ k g, (k, g) ∈ groups → ∀ r ∈ g, VitePressRenderer.moduleKeyOf r = .ok k) ∧
        (groups.map (·.1)).Nodup ∧
        (∀ k g, (k, g) ∈ acc → ∃ g', (k, g') ∈ groups ∧ ∀ r ∈ g, r ∈ g') ∧
        ∀ r ∈ children, ∃ k g, (k, g) ∈ groups ∧ r ∈ g := by
  induction children with
  | nil =>
    intro acc groups h hs hn
    simp only [List.foldlM_nil] at h
    have : acc = groups := by
      have h' : (Except.ok acc : Except String _) = .ok groups := h
      simpa using h'
    subst this
    exact ⟨hs, hn, fun k g hm => ⟨g, hm, fun r hr => hr⟩, by simp⟩
  | cons x rest ih =>
    intro acc groups h hs hn
    rw [List.foldlM_cons] at h
    cases hk : VitePressRenderer.moduleKeyOf x with
    | error e =>
      rw [hk, except_error_bind, except_error_bind] at h
      exact absurd h (by simp)
    | ok key =>
      rw [hk, except_bind_ok, except_pure_bind] at h
      obtain ⟨hs', hn', hpres, hcompl⟩ := ih (VitePressRenderer.mapInsert acc key x) groups h
        (mapInsert_sound hs hk) (mapInsert_nodup hn)
      refine ⟨hs', hn', ?_, ?_⟩
      · intro k g hm
        obtain ⟨g', hg', hsub⟩ := @mapInsert_preserves acc key x k g hm
        obtain ⟨g'', hg'', hsub'⟩ := hpres k g' hg'
        exact ⟨g'', hg'', fun r hr => hsub' r (hsub r hr)⟩
      · intro r hr
        rcases List.mem_cons.mp hr with rfl | hr
        · obtain ⟨g', hg', hx⟩ := mapInsert_adds acc key r
          obtain ⟨g'', hg'', hsub⟩ := hpres key g' hg'
          exact ⟨key, g'', hg'', hsub r hx⟩
        · exact hcompl r hr

/-- C4 amended: `renderProject` partitions the node list by the *second*
path segment (`split("/")[1]`) of `CommentParser.getModule`; every group
member's key equals its group's key, group keys are pairwise distinct
(so all nodes whose key is not derivable — no module or no second
segment — share the single `undefined` bucket), and every node lands in
some group. -/
theorem groupChildren_partitions_by_second_segment (children : List Reflection)
    (groups : List (Option String × List Reflection))
    (h : VitePressRenderer.groupChildren children = .ok groups) :
    (∀ k g, (k, g) ∈ groups → ∀ r ∈ g, VitePressRenderer.moduleKeyOf r = .ok k) ∧
      (groups.map (·.1)).Nodup ∧
      ∀ r ∈ children, ∃ k g, (k, g) ∈ groups ∧ r ∈ g := by
  obtain ⟨hs, hn, _, hcompl⟩ := groupChildren_go children [] groups h (by simp) (by simp)
  exact ⟨hs, hn, hcompl⟩

/-- Witness for the C4 amended theorem at a concrete node list. -/
theorem groupChildren_partitions_witness :
    VitePressRenderer.groupChildren [secondSegmentNode] =
        .ok [(some "b", [secondSegmentNode])] ∧
      ((∀ k g, (k, g) ∈ [((some "b" : Option String), [secondSegmentNode])] →
          ∀ r ∈ g, VitePressRenderer.moduleKeyOf r = .ok k) ∧
        ([((some "b" : Option String), [secondSegmentNode])].map (·.1)).Nodup ∧
        ∀ r ∈ [secondSegmentNode],
          ∃ k g, (k, g) ∈ [((some "b" : Option String), [secondSegmentNode])] ∧ r ∈ g) :=
  ⟨rfl, groupChildren_partitions_by_second_segment [secondSegmentNode]
    [(some "b", [secondSegmentNode])] rfl⟩
